import Mathlib

/-!
# WalletPay Go SDK: order client and webhook verifier

A shallow embedding of `walletpay/client.go`, `walletpay/order.go` and
`walletpay/webhook.go`.

* Go strings and byte slices are lists of bytes (`GoString`).
* A Go result pair `(value, error)` is a pair of options: `none` in the
  first component is the nil pointer / nil slice / nil reader, `none` in the
  second component is the nil error. `request`, which returns either a nil
  reader with an error or the response body with a nil error, and the
  standard-library calls of the same shape return `Except`.
* The standard-library collaborators that talk to the outside world or
  that are cryptographic primitives (`net/http`, `crypto/hmac` with
  `crypto/sha256`), and the `encoding/json` calls of the order client, are
  parameters of the functions that call them.
* `encoding/base64` is modelled in full. `encoding/json` is modelled for the
  webhook events and for the order request, after the Go sources: the writer (`json.Marshal`: members by
  field tag in declaration order, strings escaped and coerced to valid UTF-8,
  integers in decimal) and the reader (`json.Unmarshal`: the scanner with its
  nesting limit, string unquoting, field selection by exact or case-folded
  key, type errors recorded while decoding goes on), with the parts of
  `unicode/utf8` and `strconv` they use.
* Loops that advance by a varying number of bytes take a fuel argument that
  their callers set to a bound on the number of steps.
-/

namespace WalletPay

/-! ## Bytes and strings -/

/-- One octet. -/
abbrev Byte := Fin 256

/-- A Go `string` (equally a `[]byte`): an arbitrary sequence of octets. -/
abbrev GoString := List Byte

/-- The octets of an ASCII literal of the source text. -/
def str (s : String) : GoString := s.data.map (fun c => Fin.ofNat c.toNat)

/-! ## `encoding/base64`, `StdEncoding.EncodeToString` -/

/-- The standard alphabet of RFC 4648 (`encodeStd` in `encoding/base64`). -/
def encodeStd : GoString :=
  str "ABCDEFGHIJKLMNOPQRSTUVWXYZabcdefghijklmnopqrstuvwxyz0123456789+/"

/-- The padding character `=` (`StdPadding`). -/
def padChar : Byte := 61

/-- The table lookup `enc.encode[val >> shift & 0x3F]`. -/
def encodeSextet (val shift : Nat) : Byte :=
  encodeStd.getD ((val >>> shift) &&& 0x3F) 0

/-- `base64.StdEncoding.EncodeToString`: every full group of three octets
gives four characters; a remainder of one or two octets gives two or three
characters, padded with `=` to four. -/
def base64Encode : GoString → GoString
  | a :: b :: c :: rest =>
    let val := a.val <<< 16 ||| b.val <<< 8 ||| c.val
    encodeSextet val 18 :: encodeSextet val 12 :: encodeSextet val 6 :: encodeSextet val 0
      :: base64Encode rest
  | [a, b] =>
    let val := a.val <<< 16 ||| b.val <<< 8
    [encodeSextet val 18, encodeSextet val 12, encodeSextet val 6, padChar]
  | [a] =>
    let val := a.val <<< 16
    [encodeSextet val 18, encodeSextet val 12, padChar, padChar]
  | [] => []

/-! ## The client (`client.go`) -/

/-- The `http.Client` held by the SDK client; only its timeout is configured
here (in nanoseconds, as `time.Duration`). -/
structure HttpClient where
  Timeout : Int
deriving DecidableEq

/-- The SDK client: `Client` of `client.go`. -/
structure Client where
  ApiKey : GoString
  httpClient : HttpClient
deriving DecidableEq

/-- The constructor options: `Options` of `client.go`. -/
structure Options where
  ApiKey : GoString
  ClientTimeout : Int
deriving DecidableEq

/-- One second as a `time.Duration`. -/
def timeSecond : Int := 1000000000

/-- `NewClient`: the timeout defaults to twenty seconds when left at zero. -/
def NewClient (options : Options) : Client :=
  let clientTimeout := timeSecond * 20
  let clientTimeout := if options.ClientTimeout ≠ 0 then options.ClientTimeout else clientTimeout
  { ApiKey := options.ApiKey, httpClient := { Timeout := clientTimeout } }

/-! ## Errors, readers and the HTTP collaborator -/

/-- Go `error` values of the package: a failure reported by a collaborator,
and one constructor for every `fmt.Errorf` of the source, keeping what the
format string prints. -/
inductive Error where
  | external (detail : GoString)
  | encodingOrderRequest (cause : Error)
  | creatingRequest (cause : Error)
  | sendingRequest (cause : Error)
  | unexpectedStatusCode (code : Int)
  | readingResponseBody (cause : Error)
  | decodingResponseBody (cause : Error)
  | creatingOrder (status message : GoString)
  | gettingOrder (status message : GoString)
deriving DecidableEq

/-- An `io.Reader`, given by what `io.ReadAll` obtains from it: the bytes
read and the error that ended the reading, if any. -/
structure Reader where
  data : GoString
  err : Option Error
deriving DecidableEq

/-- `bytes.NewReader`. -/
def bytesNewReader (b : GoString) : Reader := { data := b, err := none }

/-- `io.ReadAll`. -/
def ioReadAll (r : Reader) : GoString × Option Error := (r.data, r.err)

/-- `url.Values`, in insertion order. -/
abbrev Values := List (GoString × GoString)

/-- `url.Values.Add`. -/
def Values.Add (q : Values) (key value : GoString) : Values := q ++ [(key, value)]

/-- `http.Header.Set`: replaces whatever the key held. -/
def headerSet (h : List (GoString × GoString)) (key value : GoString) :
    List (GoString × GoString) :=
  (key, value) :: h.filter (fun kv => kv.1 ≠ key)

/-- The parts of an `http.Request` the client touches. -/
structure Request where
  Method : GoString
  URL : GoString
  Query : Values
  Header : List (GoString × GoString)
  Body : Option Reader
deriving DecidableEq

/-- The parts of an `http.Response` the client reads. -/
structure Response where
  StatusCode : Int
  Body : Reader
deriving DecidableEq

/-! ## Wire types (`order.go`) -/

/-- A Go `int64`. -/
abbrev Int64 := { i : Int // -9223372036854775808 ≤ i ∧ i ≤ 9223372036854775807 }

/-- The zero `int64`. -/
def zeroInt64 : Int64 := ⟨0, by decide⟩

/-- `MoneyAmount` of `order.go`. -/
structure MoneyAmount where
  CurrencyCode : GoString
  Amount : GoString
deriving DecidableEq

/-- `OrderRequest` of `order.go`. -/
structure OrderRequest where
  Amount : MoneyAmount
  Description : GoString
  ReturnURL : GoString
  FailReturnURL : GoString
  CustomData : GoString
  ExternalID : GoString
  TimeoutSeconds : Int64
  CustomerTelegramID : Int64
deriving DecidableEq

/-- `OrderPreview` of `order.go`. -/
structure OrderPreview where
  ID : GoString
  Status : GoString
  Number : GoString
  Amount : MoneyAmount
  CreateDateTime : GoString
  ExpirationDateTime : GoString
  CompletedDateTime : GoString
  PayLink : GoString
deriving DecidableEq

/-- `OrderResponse` of `order.go`, the wire envelope. -/
structure OrderResponse where
  Status : GoString
  Message : GoString
  Preview : OrderPreview
deriving DecidableEq

/-- The zero value of `OrderResponse` (`var response OrderResponse`). -/
def zeroOrderResponse : OrderResponse :=
  { Status := [], Message := [],
    Preview := { ID := [], Status := [], Number := [], Amount := { CurrencyCode := [], Amount := [] },
                 CreateDateTime := [], ExpirationDateTime := [], CompletedDateTime := [],
                 PayLink := [] } }

/-- The gateway statuses and currency codes (constants of `order.go`). -/
def OrderStatusSuccess : GoString := str "SUCCESS"
def OrderStatusAlready : GoString := str "ALREADY"
def OrderStatusConflict : GoString := str "CONFLICT"
def OrderStatusAccessDenied : GoString := str "ACCESS_DENIED"
def TON : GoString := str "TON"
def BTC : GoString := str "BTC"
def USDT : GoString := str "USDT"
def EUR : GoString := str "EUR"
def USD : GoString := str "USD"
def RUB : GoString := str "RUB"

/-- The header name, host and endpoint paths (constants of `client.go`). -/
def apiTokenHeaderName : GoString := str "Wpay-Store-Api-Key"
def apiUrl : GoString := str "https://pay.wallet.tg"
def orderPath : GoString := str "/wpay/store-api/v1/order"
def previewPath : GoString := str "/wpay/store-api/v1/order/preview"

/-- `http.MethodPost`. -/
def httpMethodPost : GoString := str "POST"

/-- `http.StatusOK`. -/
def httpStatusOK : Int := 200

/-- The standard-library calls of the order client, taken as they are
declared: `json.Marshal` of an order request (bytes or an error, the error
being what `encodeRequest` has a branch for), `json.Unmarshal` into an
`*OrderResponse` (the target after the call and the error), `url.JoinPath`,
`http.NewRequestWithContext` and `http.Client.Do`. -/
structure World where
  jsonMarshal : OrderRequest → Except Error GoString
  jsonUnmarshal : GoString → OrderResponse → OrderResponse × Option Error
  urlJoinPath : GoString → GoString → GoString × Option Error
  newRequestWithContext : GoString → GoString → Option Reader → Except Error Request
  httpDo : HttpClient → Request → Except Error Response

/-! ## Request plumbing (`client.go`) -/

/-- `getRequestUrl`: the error of `url.JoinPath` is dropped. -/
def getRequestUrl (w : World) (_c : Client) (path : GoString) : GoString :=
  (w.urlJoinPath apiUrl path).1

/-- `encodeRequest`. -/
def encodeRequest (w : World) (_c : Client) (order : OrderRequest) :
    Option Reader × Option Error :=
  match w.jsonMarshal order with
  | .error err => (none, some (.encodingOrderRequest err))
  | .ok orderJson => (some (bytesNewReader orderJson), none)

/-- `decodeResponse`: the target after the call, and the error. -/
def decodeResponse (w : World) (_c : Client) (responseBodyReader : Reader)
    (target : OrderResponse) : OrderResponse × Option Error :=
  match ioReadAll responseBodyReader with
  | (_, some err) => (target, some (.readingResponseBody err))
  | (responseBody, none) =>
    match w.jsonUnmarshal responseBody target with
    | (target, some err) => (target, some (.decodingResponseBody err))
    | (target, none) => (target, none)

/-- The request as `request` sends it: the query modifier applied when there
is one, then the three headers set. -/
def prepareRequest (c : Client) (req : Request) (queryModifierFunc : Option (Values → Values)) :
    Request :=
  let req := match queryModifierFunc with
    | some f => { req with Query := f req.Query }
    | none => req
  let req := { req with Header := headerSet req.Header apiTokenHeaderName c.ApiKey }
  let req := { req with Header := headerSet req.Header (str "Content-Type") (str "application/json") }
  { req with Header := headerSet req.Header (str "Accept") (str "application/json") }

/-- `request`: the response body reader, or the error. The body is handed
on for status 200 (`http.StatusOK`) only. -/
def request (w : World) (c : Client) (path : GoString) (body : Option Reader)
    (queryModifierFunc : Option (Values → Values)) : Except Error Reader :=
  match w.newRequestWithContext httpMethodPost path body with
  | .error err => .error (.creatingRequest err)
  | .ok req =>
    match w.httpDo c.httpClient (prepareRequest c req queryModifierFunc) with
    | .error err => .error (.sendingRequest err)
    | .ok resp =>
      if resp.StatusCode ≠ httpStatusOK then .error (.unexpectedStatusCode resp.StatusCode)
      else .ok resp.Body

/-! ## The order operations (`order.go`) -/

/-- `CreateOrder`. The error of `encodeRequest` is assigned to `err` and
overwritten by the result of `request` before it is looked at; the reader
(nil when the encoding failed) is passed on. -/
def CreateOrder (w : World) (c : Client) (orderRequest : OrderRequest) :
    Option OrderPreview × Option Error :=
  let (orderRequestReader, _err) := encodeRequest w c orderRequest
  match request w c (getRequestUrl w c orderPath) orderRequestReader none with
  | .error err => (none, some err)
  | .ok responseBodeReader =>
    match decodeResponse w c responseBodeReader zeroOrderResponse with
    | (_, some err) => (none, some err)
    | (response, none) =>
      if response.Status = OrderStatusSuccess ∨ response.Status = OrderStatusAlready then
        (some response.Preview, none)
      else
        (none, some (.creatingOrder response.Status response.Message))

/-- `GetPreviewOrder`. -/
def GetPreviewOrder (w : World) (c : Client) (id : GoString) :
    Option OrderPreview × Option Error :=
  match request w c (getRequestUrl w c previewPath) none
      (some (fun q => Values.Add q (str "id") id)) with
  | .error err => (none, some err)
  | .ok responseBodeReader =>
    match decodeResponse w c responseBodeReader zeroOrderResponse with
    | (_, some err) => (none, some err)
    | (response, none) =>
      if response.Status = OrderStatusSuccess then
        (some response.Preview, none)
      else
        (none, some (.gettingOrder response.Status response.Message))

/-! ## Webhook events (`webhook.go`) -/

/-- The event types (constants of `webhook.go`). -/
def EventTypesOrderPaid : GoString := str "ORDER_PAID"
def EventTypesOrderFailed : GoString := str "ORDER_FAILED"

/-- `SelectPaymentOption` of `webhook.go`. -/
structure SelectPaymentOption where
  Amount : MoneyAmount
  AmountFee : MoneyAmount
  AmountNet : MoneyAmount
  ExchangeRate : GoString
deriving DecidableEq

/-- `Payload` of `webhook.go`. -/
structure Payload where
  Status : GoString
  ID : Int64
  Number : GoString
  ExternalID : GoString
  CustomData : GoString
  OrderAmount : MoneyAmount
  SelectedPaymentOption : SelectPaymentOption
  OrderCompletedDateTime : GoString
deriving DecidableEq

/-- `Event` of `webhook.go`; the field `Type` is written with a prime, the
bare word being reserved. -/
structure Event where
  EventDateTime : GoString
  EventID : Int64
  Type' : GoString
  Payload : Payload
deriving DecidableEq

/-- `ParseEvents`. `jsonUnmarshal body target` is `json.Unmarshal(body,
&events)`: the slice after the call (`none` is the nil slice) and the error.
On an error the nil slice is returned, not what the decoder left behind. -/
def ParseEvents
    (jsonUnmarshal : GoString → Option (List Event) → Option (List Event) × Option Error)
    (body : GoString) : Option (List Event) × Option Error :=
  let events : Option (List Event) := none
  match jsonUnmarshal body events with
  | (_, some err) => (none, some err)
  | (events, none) => (events, none)

/-! ## Webhook signatures (`webhook.go`) -/

/-- The canonical message of `computeSignature`, the local `stringToSign`:
Go's `+` associates to the left. -/
def stringToSign (httpMethod uriPath timestamp body : GoString) : GoString :=
  let base64Body := base64Encode body
  (((((httpMethod ++ str ".") ++ uriPath) ++ str ".") ++ timestamp) ++ str ".") ++ base64Body

/-- `computeSignature`: `hmacSha256 key message` stands for
`hmac.New(sha256.New, key)`, one `Write(message)` and `Sum(nil)`. -/
def computeSignature (hmacSha256 : GoString → GoString → GoString) (c : Client)
    (httpMethod uriPath timestamp body : GoString) : GoString :=
  let stringToSign := stringToSign httpMethod uriPath timestamp body
  let byteArraySignature := hmacSha256 c.ApiKey stringToSign
  base64Encode byteArraySignature

/-- `VerifySignature`: plain string equality with the recomputed signature. -/
def VerifySignature (hmacSha256 : GoString → GoString → GoString) (c : Client)
    (httpMethod uriPath timestamp body signature : GoString) : Bool :=
  computeSignature hmacSha256 c httpMethod uriPath timestamp body == signature

/-- The signature as the specification words it: the four components in the
order method, path, timestamp, base64 of the body, joined by a single `.`,
authenticated under the API key and base64-encoded. -/
def specSignature (hmacSha256 : GoString → GoString → GoString) (apiKey : GoString)
    (method path timestamp body : GoString) : GoString :=
  base64Encode
    (hmacSha256 apiKey (List.intercalate [46] [method, path, timestamp, base64Encode body]))

/-! ## `unicode/utf8` and the string literals of `encoding/json` -/

/-- `utf8.RuneError`. -/
def RuneError : Nat := 0xFFFD

/-- The width a leading byte announces, from the table `first` of
`unicode/utf8`; 0 for a byte that cannot lead. -/
def firstSize (p0 : Nat) : Nat :=
  if p0 < 0x80 then 1 else if p0 < 0xC2 then 0 else if p0 < 0xE0 then 2
  else if p0 < 0xF0 then 3 else if p0 < 0xF5 then 4 else 0

/-- The least second byte a leading byte accepts (`acceptRanges`). -/
def acceptLo (p0 : Nat) : Nat := if p0 = 0xE0 then 0xA0 else if p0 = 0xF0 then 0x90 else 0x80

/-- The greatest second byte a leading byte accepts (`acceptRanges`). -/
def acceptHi (p0 : Nat) : Nat := if p0 = 0xED then 0x9F else if p0 = 0xF4 then 0x8F else 0xBF

/-- `utf8.DecodeRune`: the first rune of `p` and its width in bytes;
`(RuneError, 1)` for an encoding that is not well formed, `(RuneError, 0)`
for the empty input. Masks and shifts are written as remainders and
products. -/
def decodeRune (p : GoString) : Nat × Nat :=
  match p with
  | [] => (RuneError, 0)
  | p0 :: rest =>
    let sz := firstSize p0.val
    if p0.val < 0x80 then (p0.val, 1)
    else if sz = 0 then (RuneError, 1)
    else if rest.length + 1 < sz then (RuneError, 1)
    else
      let b1 := (rest.getD 0 0).val
      if b1 < acceptLo p0.val ∨ acceptHi p0.val < b1 then (RuneError, 1)
      else if sz ≤ 2 then (p0.val % 32 * 64 + b1 % 64, 2)
      else
        let b2 := (rest.getD 1 0).val
        if b2 < 0x80 ∨ 0xBF < b2 then (RuneError, 1)
        else if sz ≤ 3 then (p0.val % 16 * 4096 + b1 % 64 * 64 + b2 % 64, 3)
        else
          let b3 := (rest.getD 2 0).val
          if b3 < 0x80 ∨ 0xBF < b3 then (RuneError, 1)
          else (p0.val % 8 * 262144 + b1 % 64 * 4096 + b2 % 64 * 64 + b3 % 64, 4)

/-- `utf8.AppendRune` on an empty slice: the UTF-8 encoding of a rune, that
of `RuneError` for a surrogate or a value beyond U+10FFFF. -/
def encodeRune (r : Nat) : GoString :=
  if r ≤ 0x7F then [Fin.ofNat r]
  else if r ≤ 0x7FF then [Fin.ofNat (0xC0 + r / 64), Fin.ofNat (0x80 + r % 64)]
  else if r > 0x10FFFF ∨ (0xD800 ≤ r ∧ r ≤ 0xDFFF) then [0xEF, 0xBF, 0xBD]
  else if r ≤ 0xFFFF then
    [Fin.ofNat (0xE0 + r / 4096), Fin.ofNat (0x80 + r / 64 % 64), Fin.ofNat (0x80 + r % 64)]
  else
    [Fin.ofNat (0xF0 + r / 262144), Fin.ofNat (0x80 + r / 4096 % 64),
      Fin.ofNat (0x80 + r / 64 % 64), Fin.ofNat (0x80 + r % 64)]

/-- The loop of `utf8.ValidString`: no position decodes to the error rune
of width one. -/
def validStringLoop : Nat → GoString → Bool
  | 0, _ => true
  | _ + 1, [] => true
  | fuel + 1, b :: rest =>
    let cs := decodeRune (b :: rest)
    if cs.1 = RuneError ∧ cs.2 = 1 then false
    else validStringLoop fuel ((b :: rest).drop cs.2)

/-- `utf8.ValidString`. -/
def ValidString (s : GoString) : Bool := validStringLoop s.length s

/-- The lower-case hexadecimal digits (`hex` in `encoding/json`). -/
def hexDigit (n : Nat) : Byte := (str "0123456789abcdef").getD n 0

/-- `htmlSafeSet` of `encoding/json`, on ASCII. -/
def htmlSafe (b : Byte) : Bool :=
  decide (0x20 ≤ b.val) && b != 34 && b != 38 && b != 60 && b != 62 && b != 92

/-- The escape `appendString` writes for an ASCII byte outside
`htmlSafeSet`: a backslash pair for the quote, the backslash and the five
named control characters (as of Go 1.22; before, backspace and form feed
were written like the others, which reads back the same), `\u00XX` for the
others. -/
def escapeByte (b : Byte) : GoString :=
  if b = 92 ∨ b = 34 then [92, b]
  else if b = 8 then [92, 98]
  else if b = 12 then [92, 102]
  else if b = 10 then [92, 110]
  else if b = 13 then [92, 114]
  else if b = 9 then [92, 116]
  else [92, 117, 48, 48, hexDigit (b.val / 16), hexDigit (b.val % 16)]

/-- The loop of `appendString` of `encoding/json` with HTML escaping on, as
`json.Marshal` has it: safe ASCII is copied, other ASCII escaped, a byte that
does not start a well-formed rune becomes `\ufffd`, U+2028 and U+2029 are
escaped, any other rune is copied. -/
def appendStringLoop : Nat → GoString → GoString
  | 0, _ => []
  | _ + 1, [] => []
  | fuel + 1, b :: rest =>
    if b.val < 0x80 then
      (if htmlSafe b then [b] else escapeByte b) ++ appendStringLoop fuel rest
    else
      let cs := decodeRune (b :: rest)
      if cs.1 = RuneError ∧ cs.2 = 1 then
        [92, 117, 102, 102, 102, 100] ++ appendStringLoop fuel rest
      else if cs.1 = 0x2028 ∨ cs.1 = 0x2029 then
        [92, 117, 50, 48, 50, hexDigit (cs.1 % 16)] ++ appendStringLoop fuel ((b :: rest).drop cs.2)
      else
        (b :: rest).take cs.2 ++ appendStringLoop fuel ((b :: rest).drop cs.2)

/-- `appendString`: a Go string as a JSON string literal. -/
def appendString (src : GoString) : GoString :=
  34 :: (appendStringLoop src.length src ++ [34])

/-- The value of a hexadecimal digit, in either case. -/
def hexVal (c : Byte) : Option Nat :=
  if 48 ≤ c.val ∧ c.val ≤ 57 then some (c.val - 48)
  else if 97 ≤ c.val ∧ c.val ≤ 102 then some (c.val - 97 + 10)
  else if 65 ≤ c.val ∧ c.val ≤ 70 then some (c.val - 65 + 10)
  else none

/-- `getu4`: the rune of a leading `\uXXXX`, if the input starts with one. -/
def getu4 (s : GoString) : Option Nat :=
  match s with
  | e :: u :: a :: b :: c :: d :: _ =>
    if e = 92 ∧ u = 117 then
      match hexVal a, hexVal b, hexVal c, hexVal d with
      | some a, some b, some c, some d => some (((a * 16 + b) * 16 + c) * 16 + d)
      | _, _, _, _ => none
    else none
  | _ => none

/-- The byte a two-character escape stands for. -/
def simpleEscape (e : Byte) : Option Byte :=
  if e = 34 ∨ e = 92 ∨ e = 47 then some e
  else if e = 98 then some 8
  else if e = 102 then some 12
  else if e = 110 then some 10
  else if e = 114 then some 13
  else if e = 116 then some 9
  else none

/-- `utf16.DecodeRune` on two escapes. -/
def utf16DecodeRune (r1 r2 : Nat) : Nat :=
  if 0xD800 ≤ r1 ∧ r1 < 0xDC00 ∧ 0xDC00 ≤ r2 ∧ r2 < 0xE000 then
    (r1 - 0xD800) * 1024 + (r2 - 0xDC00) + 0x10000
  else RuneError

/-- The characters of a string literal after the opening quote: the value
and what follows the closing quote. One pass does what the scanner (which
rejects control characters and unknown escapes) and `unquoteBytes` (which
resolves escapes, pairs surrogates and replaces ill-formed UTF-8 by U+FFFD)
do one after the other. -/
def scanString : Nat → GoString → Option (GoString × GoString)
  | 0, _ => none
  | _ + 1, [] => none
  | fuel + 1, c :: rest =>
    if c = 34 then some ([], rest)
    else if c = 92 then
      match rest with
      | [] => none
      | e :: rest1 =>
        if e = 117 then
          match getu4 (c :: rest) with
          | none => none
          | some rr =>
            if 0xD800 ≤ rr ∧ rr < 0xE000 then
              match getu4 (rest.drop 5) with
              | none => (scanString fuel (rest.drop 5)).map
                  (fun vr => (encodeRune RuneError ++ vr.1, vr.2))
              | some rr1 =>
                if utf16DecodeRune rr rr1 ≠ RuneError then
                  (scanString fuel (rest.drop 11)).map
                    (fun vr => (encodeRune (utf16DecodeRune rr rr1) ++ vr.1, vr.2))
                else
                  (scanString fuel (rest.drop 5)).map
                    (fun vr => (encodeRune RuneError ++ vr.1, vr.2))
            else
              (scanString fuel (rest.drop 5)).map (fun vr => (encodeRune rr ++ vr.1, vr.2))
        else
          match simpleEscape e with
          | none => none
          | some ch => (scanString fuel rest1).map (fun vr => (ch :: vr.1, vr.2))
    else if c.val < 0x20 then none
    else if c.val < 0x80 then (scanString fuel rest).map (fun vr => (c :: vr.1, vr.2))
    else
      let cs := decodeRune (c :: rest)
      (scanString fuel ((c :: rest).drop cs.2)).map (fun vr => (encodeRune cs.1 ++ vr.1, vr.2))

/-- What `decodeRune` can return at a byte that is not ASCII. -/
inductive RuneAt : GoString → Nat → Nat → Prop where
  | two (b b1 : Byte) (q : GoString) (h0 : 0xC2 ≤ b.val ∧ b.val < 0xE0)
      (h1 : 0x80 ≤ b1.val ∧ b1.val ≤ 0xBF) :
      RuneAt (b :: b1 :: q) (b.val % 32 * 64 + b1.val % 64) 2
  | three (b b1 b2 : Byte) (q : GoString) (h0 : 0xE0 ≤ b.val ∧ b.val < 0xF0)
      (h1 : acceptLo b.val ≤ b1.val ∧ b1.val ≤ acceptHi b.val)
      (h2 : 0x80 ≤ b2.val ∧ b2.val ≤ 0xBF) :
      RuneAt (b :: b1 :: b2 :: q) (b.val % 16 * 4096 + b1.val % 64 * 64 + b2.val % 64) 3
  | four (b b1 b2 b3 : Byte) (q : GoString) (h0 : 0xF0 ≤ b.val ∧ b.val < 0xF5)
      (h1 : acceptLo b.val ≤ b1.val ∧ b1.val ≤ acceptHi b.val)
      (h2 : 0x80 ≤ b2.val ∧ b2.val ≤ 0xBF) (h3 : 0x80 ≤ b3.val ∧ b3.val ≤ 0xBF) :
      RuneAt (b :: b1 :: b2 :: b3 :: q)
        (b.val % 8 * 262144 + b1.val % 64 * 4096 + b2.val % 64 * 64 + b3.val % 64) 4

/-! ## `strconv`: decimal integers -/

/-- A decimal digit. -/
def isDigit (c : Byte) : Bool := decide (48 ≤ c.val) && decide (c.val ≤ 57)

/-- `strconv.formatBits` in base ten: the digits of `u` put in front of `acc`,
last digit first. -/
def formatBits : Nat → Nat → GoString → GoString
  | 0, _, acc => acc
  | fuel + 1, u, acc =>
    if u < 10 then Fin.ofNat (u + 48) :: acc
    else formatBits fuel (u / 10) (Fin.ofNat (u % 10 + 48) :: acc)

/-- `strconv.AppendInt(dst, i, 10)` on an empty `dst`. -/
def formatInt (i : Int) : GoString :=
  if i < 0 then 45 :: formatBits 20 i.natAbs [] else formatBits 20 i.natAbs []

/-- The value of a run of decimal digits. -/
def digitsValue (ds : GoString) : Nat := ds.foldl (fun a d => a * 10 + (d.val - 48)) 0

/-- `strconv.ParseInt(s, 10, 64)`: an optional sign, then decimal digits only,
the value within the range of `int64`. -/
def parseInt64 (s : GoString) : Option Int64 :=
  let neg := s.head? = some 45
  let ds := if s.head? = some 45 ∨ s.head? = some 43 then s.tail else s
  if ds = [] ∨ ¬ ds.all isDigit then none
  else
    let v : Int := if neg then - (digitsValue ds : Int) else (digitsValue ds : Int)
    if h : -9223372036854775808 ≤ v ∧ v ≤ 9223372036854775807 then some ⟨v, h⟩ else none

/-- A canonical run of digits: not empty, digits only, no leading zero unless
it is the single digit zero. -/
def CanonDigits (ds : GoString) : Prop :=
  ds ≠ [] ∧ (∀ d ∈ ds, isDigit d = true) ∧ (ds = [48] ∨ ds.head? ≠ some 48)

/-! ## `encoding/json`: documents, the scanner and the writer -/

/-- A JSON document: number literals keep their text, strings hold the
decoded value, object members keep their order. -/
inductive Json where
  | null
  | bool (b : Bool)
  | num (literal : GoString)
  | str (s : GoString)
  | arr (elems : List Json)
  | obj (members : List (GoString × Json))

/-- The insignificant whitespace of JSON: space, tab, carriage return, line feed. -/
def isSpace (c : Byte) : Bool := c == 32 || c == 9 || c == 13 || c == 10

/-- The input after its leading whitespace. -/
def skipSpace : GoString → GoString
  | [] => []
  | c :: rest => if isSpace c then skipSpace rest else c :: rest

/-- The digits at the head of the input, and what follows them. -/
def spanDigits : GoString → GoString × GoString
  | [] => ([], [])
  | c :: rest => if isDigit c then ((c :: (spanDigits rest).1), (spanDigits rest).2) else ([], c :: rest)

/-- The integer part of a number: a single `0`, or a digit from 1 to 9
followed by digits. -/
def scanInt : GoString → Option (GoString × GoString)
  | [] => none
  | c :: rest =>
    if c = 48 then some ([48], rest)
    else if isDigit c then some (c :: (spanDigits rest).1, (spanDigits rest).2)
    else none

/-- The optional fraction: a dot and at least one digit. -/
def scanFrac : GoString → Option (GoString × GoString)
  | [] => some ([], [])
  | c :: rest =>
    if c = 46 then
      if (spanDigits rest).1 = [] then none
      else some (46 :: (spanDigits rest).1, (spanDigits rest).2)
    else some ([], c :: rest)

/-- The optional exponent: `e` or `E`, an optional sign, at least one digit. -/
def scanExp : GoString → Option (GoString × GoString)
  | [] => some ([], [])
  | c :: rest =>
    if c = 101 ∨ c = 69 then
      let signed := rest.head? = some 43 ∨ rest.head? = some 45
      let sign := if signed then rest.take 1 else []
      let rest1 := if signed then rest.tail else rest
      if (spanDigits rest1).1 = [] then none
      else some (c :: sign ++ (spanDigits rest1).1, (spanDigits rest1).2)
    else some ([], c :: rest)

/-- A number literal at the head of the input, as the scanner of
`encoding/json` delimits it: the literal and what follows. -/
def scanNumber (input : GoString) : Option (GoString × GoString) :=
  let negative := input.head? = some 45
  let sign : GoString := if negative then [45] else []
  let input1 := if negative then input.tail else input
  match scanInt input1 with
  | none => none
  | some (i, input2) =>
    match scanFrac input2 with
    | none => none
    | some (f, input3) =>
      match scanExp input3 with
      | none => none
      | some (e, input4) => some (sign ++ i ++ f ++ e, input4)

/-- The given characters at the head of the input: what follows them. -/
def expect : GoString → GoString → Option GoString
  | [], rest => some rest
  | _ :: _, [] => none
  | l :: ls, c :: rest => if l = c then expect ls rest else none

/-- The deepest nesting of arrays and objects the scanner of `encoding/json`
accepts (`maxNestingDepth`). -/
def maxNestingDepth : Nat := 10000

mutual
/-- One JSON value, with leading whitespace, inside `depth` open arrays and
objects: the value and what follows. -/
def parseValue : Nat → Nat → GoString → Option (Json × GoString)
  | 0, _, _ => none
  | fuel + 1, depth, input =>
    match skipSpace input with
    | [] => none
    | c :: rest =>
      if c = 123 then
        if maxNestingDepth ≤ depth then none
        else if (skipSpace rest).head? = some 125 then some (.obj [], (skipSpace rest).tail)
        else (parseMembers fuel (depth + 1) rest).map (fun r => (.obj r.1, r.2))
      else if c = 91 then
        if maxNestingDepth ≤ depth then none
        else if (skipSpace rest).head? = some 93 then some (.arr [], (skipSpace rest).tail)
        else (parseElems fuel (depth + 1) rest).map (fun r => (.arr r.1, r.2))
      else if c = 34 then (scanString (rest.length + 1) rest).map (fun vr => (.str vr.1, vr.2))
      else if c = 116 then (expect [114, 117, 101] rest).map (fun r => (.bool true, r))
      else if c = 102 then (expect [97, 108, 115, 101] rest).map (fun r => (.bool false, r))
      else if c = 110 then (expect [117, 108, 108] rest).map (fun r => (.null, r))
      else (scanNumber (c :: rest)).map (fun lr => (.num lr.1, lr.2))
/-- The elements of an array after the opening bracket, up to and including
the closing bracket. -/
def parseElems : Nat → Nat → GoString → Option (List Json × GoString)
  | 0, _, _ => none
  | fuel + 1, depth, input =>
    match parseValue fuel depth input with
    | none => none
    | some (v, rest) =>
      match skipSpace rest with
      | [] => none
      | c :: rest1 =>
        if c = 44 then (parseElems fuel depth rest1).map (fun r => (v :: r.1, r.2))
        else if c = 93 then some ([v], rest1)
        else none
/-- The members of an object after the opening brace, up to and including
the closing brace. -/
def parseMembers : Nat → Nat → GoString → Option (List (GoString × Json) × GoString)
  | 0, _, _ => none
  | fuel + 1, depth, input =>
    match skipSpace input with
    | [] => none
    | q :: rest =>
      if q = 34 then
        match scanString (rest.length + 1) rest with
        | none => none
        | some (key, rest1) =>
          match skipSpace rest1 with
          | [] => none
          | colon :: rest2 =>
            if colon = 58 then
              match parseValue fuel depth rest2 with
              | none => none
              | some (v, rest3) =>
                match skipSpace rest3 with
                | [] => none
                | c :: rest4 =>
                  if c = 44 then
                    (parseMembers fuel depth rest4).map (fun r => ((key, v) :: r.1, r.2))
                  else if c = 125 then some ([(key, v)], rest4)
                  else none
            else none
      else none
end

/-- A whole document: one value, then nothing but whitespace. The fuel is
more than two steps for every byte, which is more than the parser takes. -/
def parseDocument (data : GoString) : Option Json :=
  match parseValue (2 * data.length + 1) 0 data with
  | none => none
  | some (j, rest) => if skipSpace rest = [] then some j else none

mutual
/-- The compact text of a document, as `json.Marshal` writes it. -/
def render : Json → GoString
  | .null => [110, 117, 108, 108]
  | .bool b => if b then [116, 114, 117, 101] else [102, 97, 108, 115, 101]
  | .num literal => literal
  | .str s => appendString s
  | .arr elems => 91 :: renderElems true elems
  | .obj members => 123 :: renderMembers true members
/-- The elements of an array, comma-separated, and the closing bracket. -/
def renderElems : Bool → List Json → GoString
  | _, [] => [93]
  | first, x :: xs => (if first then [] else [44]) ++ (render x ++ renderElems false xs)
/-- The members of an object, comma-separated, each a quoted key, a colon
and the value, and the closing brace. -/
def renderMembers : Bool → List (GoString × Json) → GoString
  | _, [] => [125]
  | first, (k, v) :: ms =>
    (if first then [] else [44]) ++ (appendString k ++ (58 :: (render v ++ renderMembers false ms)))
end

/-- An integer literal as `formatInt` writes it. -/
def CanonInt (lit : GoString) : Prop := ∃ ds, CanonDigits ds ∧ (lit = ds ∨ lit = 45 :: ds)

/-- The input does not go on with a character that would extend a number. -/
def NumEnd (rest : GoString) : Prop :=
  ∀ c t, rest = c :: t → isDigit c = false ∧ c ≠ 46 ∧ c ≠ 101 ∧ c ≠ 69

mutual
/-- The documents on which reading back what was written is the identity:
integer literals in canonical form and strings that are valid UTF-8. -/
def Canon : Json → Prop
  | .null => True
  | .bool _ => True
  | .num literal => CanonInt literal
  | .str s => ValidString s = true
  | .arr elems => CanonElems elems
  | .obj members => CanonMembers members
/-- Every element is canonical. -/
def CanonElems : List Json → Prop
  | [] => True
  | x :: xs => Canon x ∧ CanonElems xs
/-- Every key is valid UTF-8 and every value canonical. -/
def CanonMembers : List (GoString × Json) → Prop
  | [] => True
  | (k, v) :: ms => ValidString k = true ∧ Canon v ∧ CanonMembers ms
end

mutual
/-- How deep arrays and objects nest in a document. -/
def Json.height : Json → Nat
  | .null => 0
  | .bool _ => 0
  | .num _ => 0
  | .str _ => 0
  | .arr elems => heightElems elems + 1
  | .obj members => heightMembers members + 1
/-- The greatest height among the elements. -/
def heightElems : List Json → Nat
  | [] => 0
  | x :: xs => max x.height (heightElems xs)
/-- The greatest height among the member values. -/
def heightMembers : List (GoString × Json) → Nat
  | [] => 0
  | (_, v) :: ms => max v.height (heightMembers ms)
end

/-- The text begins with a character that is neither whitespace nor a
closing bracket, closing brace or comma. -/
def StartsValue (s : GoString) : Prop :=
  ∃ c t, s = c :: t ∧ isSpace c = false ∧ c ≠ 93 ∧ c ≠ 125 ∧ c ≠ 44

/-! ## `encoding/json` on the event types -/

/-- The zero value of `MoneyAmount`. -/
def zeroMoneyAmount : MoneyAmount := { CurrencyCode := [], Amount := [] }

/-- The zero value of `SelectPaymentOption`. -/
def zeroSelectPaymentOption : SelectPaymentOption :=
  { Amount := zeroMoneyAmount, AmountFee := zeroMoneyAmount, AmountNet := zeroMoneyAmount,
    ExchangeRate := [] }

/-- The zero value of `Payload`. -/
def zeroPayload : Payload :=
  { Status := [], ID := zeroInt64, Number := [], ExternalID := [], CustomData := [],
    OrderAmount := zeroMoneyAmount, SelectedPaymentOption := zeroSelectPaymentOption,
    OrderCompletedDateTime := [] }

/-- The zero value of `Event`. -/
def zeroEvent : Event :=
  { EventDateTime := [], EventID := zeroInt64, Type' := [], Payload := zeroPayload }

/-- The document `json.Marshal` writes for a `MoneyAmount`: one member for
every field, named by its tag, in the order of declaration. -/
def MoneyAmount.toJson (m : MoneyAmount) : Json :=
  .obj [(str "currencyCode", .str m.CurrencyCode), (str "amount", .str m.Amount)]

/-- The document `json.Marshal` writes for a `SelectPaymentOption`. -/
def SelectPaymentOption.toJson (o : SelectPaymentOption) : Json :=
  .obj [(str "amount", o.Amount.toJson), (str "amountFee", o.AmountFee.toJson),
    (str "amountNet", o.AmountNet.toJson), (str "exchangeRate", .str o.ExchangeRate)]

/-- The document `json.Marshal` writes for a `Payload`. -/
def Payload.toJson (p : Payload) : Json :=
  .obj [(str "status", .str p.Status), (str "id", .num (formatInt p.ID.val)),
    (str "number", .str p.Number), (str "externalId", .str p.ExternalID),
    (str "customData", .str p.CustomData), (str "orderAmount", p.OrderAmount.toJson),
    (str "selectedPaymentOption", p.SelectedPaymentOption.toJson),
    (str "orderCompletedDateTime", .str p.OrderCompletedDateTime)]

/-- The document `json.Marshal` writes for an `Event`. -/
def Event.toJson (e : Event) : Json :=
  .obj [(str "eventDateTime", .str e.EventDateTime), (str "eventId", .num (formatInt e.EventID.val)),
    (str "type", .str e.Type'), (str "payload", e.Payload.toJson)]

/-- The document for a `[]Event`: `null` for the nil slice, an array otherwise. -/
def eventsToJson : Option (List Event) → Json
  | none => .null
  | some events => .arr (events.map Event.toJson)

/-- `json.Marshal(events)` for `events []Event`. -/
def jsonMarshalEvents (events : Option (List Event)) : GoString := render (eventsToJson events)

/-- The document `json.Marshal` writes for an `OrderRequest`: one member for
every field, named by its tag, in the order of declaration. -/
def OrderRequest.toJson (o : OrderRequest) : Json :=
  .obj [(str "amount", o.Amount.toJson), (str "description", .str o.Description),
    (str "returnUrl", .str o.ReturnURL), (str "failReturnUrl", .str o.FailReturnURL),
    (str "customData", .str o.CustomData), (str "externalId", .str o.ExternalID),
    (str "timeoutSeconds", .num (formatInt o.TimeoutSeconds.val)),
    (str "customerTelegramId", .num (formatInt o.CustomerTelegramID.val))]

/-- `json.Marshal(order)` for `order OrderRequest`. The fields are strings,
`int64`s and a struct of strings, none of which `json.Marshal` can refuse, so
the bytes come with the nil error for every order request. -/
def jsonMarshalOrder (order : OrderRequest) : GoString := render order.toJson

/-- The error `json.Unmarshal` returns for text that is not a JSON document. -/
def syntaxError : Error := .external (str "json: invalid character or unexpected end of input")

/-- The error `json.Unmarshal` records for a value that does not fit the target. -/
def unmarshalTypeError : Error := .external (str "json: cannot unmarshal value into Go value")

/-- `foldName` of `encoding/json`: ASCII letters in upper case, and the two
letters outside ASCII whose case folding reaches ASCII, U+017F to `S` and
U+212A to `K`. Any other rune folds to a rune outside ASCII and is kept as
it is here, which does not change a comparison with the ASCII tags. -/
def foldName : Nat → GoString → GoString
  | 0, _ => []
  | _ + 1, [] => []
  | fuel + 1, c :: rest =>
    if c.val < 0x80 then
      (if 97 ≤ c.val ∧ c.val ≤ 122 then Fin.ofNat (c.val - 32) else c) :: foldName fuel rest
    else
      let cs := decodeRune (c :: rest)
      (if cs.1 = 0x17F then [83] else if cs.1 = 0x212A then [75] else encodeRune cs.1)
        ++ foldName fuel ((c :: rest).drop cs.2)

/-- The position of the first name equal to the key. -/
def indexOfName (key : GoString) : List GoString → Option Nat
  | [] => none
  | n :: ns => if n = key then some 0 else (indexOfName key ns).map (· + 1)

/-- The field a key selects: the field with exactly this name, or else the
first field whose folded name is the folded key. -/
def findField (names : List GoString) (key : GoString) : Option Nat :=
  match indexOfName key names with
  | some i => some i
  | none => indexOfName (foldName key.length key) (names.map (fun n => foldName n.length n))

/-- The first of two errors (`decodeState.saveError`). -/
def firstError (e1 e2 : Option Error) : Option Error :=
  match e1 with
  | some e => some e
  | none => e2

/-- A JSON value stored into a `string`. -/
def decodeString (j : Json) (cur : GoString) : GoString × Option Error :=
  match j with
  | .str s => (s, none)
  | .null => (cur, none)
  | _ => (cur, some unmarshalTypeError)

/-- A JSON value stored into an `int64`. -/
def decodeInt64 (j : Json) (cur : Int64) : Int64 × Option Error :=
  match j with
  | .num literal =>
    match parseInt64 literal with
    | some v => (v, none)
    | none => (cur, some unmarshalTypeError)
  | .null => (cur, none)
  | _ => (cur, some unmarshalTypeError)

/-- The members of an object stored one after the other into a struct. -/
def decodeMembers {α : Type} (step : GoString → Json → α → α × Option Error) :
    List (GoString × Json) → α → α × Option Error
  | [], cur => (cur, none)
  | (k, v) :: ms, cur =>
    ((decodeMembers step ms (step k v cur).1).1,
      firstError (step k v cur).2 (decodeMembers step ms (step k v cur).1).2)

/-- A JSON value stored into a struct: an object fills the fields its keys
select, `null` changes nothing, anything else is a type error. -/
def decodeStruct {α : Type} (step : GoString → Json → α → α × Option Error) (j : Json) (cur : α) :
    α × Option Error :=
  match j with
  | .obj members => decodeMembers step members cur
  | .null => (cur, none)
  | _ => (cur, some unmarshalTypeError)

/-- The JSON names of the fields of `MoneyAmount`, from the struct tags. -/
def moneyAmountFields : List GoString := [str "currencyCode", str "amount"]

/-- One object member stored into a `MoneyAmount`: into the field its key
selects, or nowhere when it selects none. -/
def decodeMoneyAmountField (key : GoString) (v : Json) (cur : MoneyAmount) :
    MoneyAmount × Option Error :=
  match findField moneyAmountFields key with
  | some 0 => ({ cur with CurrencyCode := (decodeString v cur.CurrencyCode).1 },
      (decodeString v cur.CurrencyCode).2)
  | some 1 => ({ cur with Amount := (decodeString v cur.Amount).1 }, (decodeString v cur.Amount).2)
  | _ => (cur, none)

/-- A JSON value stored into a `MoneyAmount`. -/
def decodeMoneyAmount : Json → MoneyAmount → MoneyAmount × Option Error :=
  decodeStruct decodeMoneyAmountField

/-- The JSON names of the fields of `SelectPaymentOption`, from the struct tags. -/
def selectPaymentOptionFields : List GoString :=
  [str "amount", str "amountFee", str "amountNet", str "exchangeRate"]

/-- One object member stored into a `SelectPaymentOption`. -/
def decodeSelectPaymentOptionField (key : GoString) (v : Json) (cur : SelectPaymentOption) :
    SelectPaymentOption × Option Error :=
  match findField selectPaymentOptionFields key with
  | some 0 => ({ cur with Amount := (decodeMoneyAmount v cur.Amount).1 },
      (decodeMoneyAmount v cur.Amount).2)
  | some 1 => ({ cur with AmountFee := (decodeMoneyAmount v cur.AmountFee).1 },
      (decodeMoneyAmount v cur.AmountFee).2)
  | some 2 => ({ cur with AmountNet := (decodeMoneyAmount v cur.AmountNet).1 },
      (decodeMoneyAmount v cur.AmountNet).2)
  | some 3 => ({ cur with ExchangeRate := (decodeString v cur.ExchangeRate).1 },
      (decodeString v cur.ExchangeRate).2)
  | _ => (cur, none)

/-- A JSON value stored into a `SelectPaymentOption`. -/
def decodeSelectPaymentOption : Json → SelectPaymentOption → SelectPaymentOption × Option Error :=
  decodeStruct decodeSelectPaymentOptionField

/-- The JSON names of the fields of `Payload`, from the struct tags. -/
def payloadFields : List GoString :=
  [str "status", str "id", str "number", str "externalId", str "customData", str "orderAmount",
    str "selectedPaymentOption", str "orderCompletedDateTime"]

/-- One object member stored into a `Payload`. -/
def decodePayloadField (key : GoString) (v : Json) (cur : Payload) : Payload × Option Error :=
  match findField payloadFields key with
  | some 0 => ({ cur with Status := (decodeString v cur.Status).1 }, (decodeString v cur.Status).2)
  | some 1 => ({ cur with ID := (decodeInt64 v cur.ID).1 }, (decodeInt64 v cur.ID).2)
  | some 2 => ({ cur with Number := (decodeString v cur.Number).1 }, (decodeString v cur.Number).2)
  | some 3 => ({ cur with ExternalID := (decodeString v cur.ExternalID).1 },
      (decodeString v cur.ExternalID).2)
  | some 4 => ({ cur with CustomData := (decodeString v cur.CustomData).1 },
      (decodeString v cur.CustomData).2)
  | some 5 => ({ cur with OrderAmount := (decodeMoneyAmount v cur.OrderAmount).1 },
      (decodeMoneyAmount v cur.OrderAmount).2)
  | some 6 => ({ cur with SelectedPaymentOption :=
        (decodeSelectPaymentOption v cur.SelectedPaymentOption).1 },
      (decodeSelectPaymentOption v cur.SelectedPaymentOption).2)
  | some 7 => ({ cur with OrderCompletedDateTime := (decodeString v cur.OrderCompletedDateTime).1 },
      (decodeString v cur.OrderCompletedDateTime).2)
  | _ => (cur, none)

/-- A JSON value stored into a `Payload`. -/
def decodePayload : Json → Payload → Payload × Option Error := decodeStruct decodePayloadField

/-- The JSON names of the fields of `Event`, from the struct tags. -/
def eventFields : List GoString := [str "eventDateTime", str "eventId", str "type", str "payload"]

/-- One object member stored into an `Event`. -/
def decodeEventField (key : GoString) (v : Json) (cur : Event) : Event × Option Error :=
  match findField eventFields key with
  | some 0 => ({ cur with EventDateTime := (decodeString v cur.EventDateTime).1 },
      (decodeString v cur.EventDateTime).2)
  | some 1 => ({ cur with EventID := (decodeInt64 v cur.EventID).1 }, (decodeInt64 v cur.EventID).2)
  | some 2 => ({ cur with Type' := (decodeString v cur.Type').1 }, (decodeString v cur.Type').2)
  | some 3 => ({ cur with Payload := (decodePayload v cur.Payload).1 },
      (decodePayload v cur.Payload).2)
  | _ => (cur, none)

/-- A JSON value stored into an `Event`. -/
def decodeEvent : Json → Event → Event × Option Error := decodeStruct decodeEventField

/-- The elements of an array stored into a slice: element `i` is decoded
into the element the slice already has at `i`, or into a zero value. -/
def decodeElems : List Json → List Event → List Event × Option Error
  | [], _ => ([], none)
  | x :: xs, old =>
    ((decodeEvent x (old.headD zeroEvent)).1 :: (decodeElems xs old.tail).1,
      firstError (decodeEvent x (old.headD zeroEvent)).2 (decodeElems xs old.tail).2)

/-- A JSON value stored into a `[]Event`: an array gives a slice of as many
elements (empty, not nil, for the empty array), `null` gives the nil slice,
anything else is a type error. -/
def decodeEvents (j : Json) (cur : Option (List Event)) : Option (List Event) × Option Error :=
  match j with
  | .arr elems => (some (decodeElems elems (cur.getD [])).1, (decodeElems elems (cur.getD [])).2)
  | .null => (none, none)
  | _ => (cur, some unmarshalTypeError)

/-- `json.Unmarshal(data, &events)` for `events []Event`: a syntax error
leaves the target as it was; otherwise the document is stored into the
target and the first type error, if any, is returned. -/
def jsonUnmarshalEvents (data : GoString) (target : Option (List Event)) :
    Option (List Event) × Option Error :=
  match parseDocument data with
  | none => (target, some syntaxError)
  | some j => decodeEvents j target

/-- A document that is an array of objects: a sequence of event records. -/
def isEventRecords : Json → Bool
  | .arr elems => elems.all (fun x => match x with
    | .obj _ => true
    | _ => false)
  | _ => false

/-- A JSON value of the kind a `string` takes: a string, or `null`. -/
def fitsString : Json → Bool
  | .str _ => true
  | .null => true
  | _ => false

/-- A JSON value of the kind an `int64` takes: a number that is a decimal
integer within the range of `int64`, or `null`. -/
def fitsInt64 : Json → Bool
  | .num literal => (parseInt64 literal).isSome
  | .null => true
  | _ => false

/-- A JSON value of the kind a struct takes: `null`, or an object each of
whose members fits the field its key selects. -/
def fitsStruct (fitsField : GoString → Json → Bool) : Json → Bool
  | .obj members => members.all (fun kv => fitsField kv.1 kv.2)
  | .null => true
  | _ => false

/-- A member of an object for a `MoneyAmount` fits: its value is of the kind
of the field its key selects; a key that selects no field fits with any value. -/
def fitsMoneyAmountField (key : GoString) (v : Json) : Bool :=
  match findField moneyAmountFields key with
  | some 0 => fitsString v
  | some 1 => fitsString v
  | _ => true

/-- A JSON value of the kind a `MoneyAmount` takes. -/
def fitsMoneyAmount : Json → Bool := fitsStruct fitsMoneyAmountField

/-- A member of an object for a `SelectPaymentOption` fits. -/
def fitsSelectPaymentOptionField (key : GoString) (v : Json) : Bool :=
  match findField selectPaymentOptionFields key with
  | some 0 => fitsMoneyAmount v
  | some 1 => fitsMoneyAmount v
  | some 2 => fitsMoneyAmount v
  | some 3 => fitsString v
  | _ => true

/-- A JSON value of the kind a `SelectPaymentOption` takes. -/
def fitsSelectPaymentOption : Json → Bool := fitsStruct fitsSelectPaymentOptionField

/-- A member of an object for a `Payload` fits. -/
def fitsPayloadField (key : GoString) (v : Json) : Bool :=
  match findField payloadFields key with
  | some 0 => fitsString v
  | some 1 => fitsInt64 v
  | some 2 => fitsString v
  | some 3 => fitsString v
  | some 4 => fitsString v
  | some 5 => fitsMoneyAmount v
  | some 6 => fitsSelectPaymentOption v
  | some 7 => fitsString v
  | _ => true

/-- A JSON value of the kind a `Payload` takes. -/
def fitsPayload : Json → Bool := fitsStruct fitsPayloadField

/-- A member of an object for an `Event` fits. -/
def fitsEventField (key : GoString) (v : Json) : Bool :=
  match findField eventFields key with
  | some 0 => fitsString v
  | some 1 => fitsInt64 v
  | some 2 => fitsString v
  | some 3 => fitsPayload v
  | _ => true

/-- A JSON value of the kind an `Event` takes. -/
def fitsEvent : Json → Bool := fitsStruct fitsEventField

/-- A document of the kind a `[]Event` takes: `null`, or an array each of
whose elements is of the kind an `Event` takes. -/
def fitsEvents : Json → Bool
  | .arr elems => elems.all fitsEvent
  | .null => true
  | _ => false

/-- Every string of the amount is valid UTF-8. -/
def MoneyAmount.validUTF8 (m : MoneyAmount) : Bool :=
  ValidString m.CurrencyCode && ValidString m.Amount

/-- Every string of the payment option is valid UTF-8. -/
def SelectPaymentOption.validUTF8 (o : SelectPaymentOption) : Bool :=
  o.Amount.validUTF8 && o.AmountFee.validUTF8 && o.AmountNet.validUTF8 &&
    ValidString o.ExchangeRate

/-- Every string of the payload is valid UTF-8. -/
def Payload.validUTF8 (p : Payload) : Bool :=
  ValidString p.Status && ValidString p.Number && ValidString p.ExternalID &&
    ValidString p.CustomData && p.OrderAmount.validUTF8 && p.SelectedPaymentOption.validUTF8 &&
    ValidString p.OrderCompletedDateTime

/-- Every string of the event, nested ones included, is valid UTF-8. -/
def Event.validUTF8 (e : Event) : Bool :=
  ValidString e.EventDateTime && ValidString e.Type' && e.Payload.validUTF8

/-! ## Sample collaborators -/

/-- A gateway double: encoding fails or not as asked, every request is
answered with the given HTTP status, and the body decodes to the given
envelope. -/
def sampleWorld (statusCode : Int) (envelope : OrderResponse) (encodingFails : Bool) : World where
  jsonMarshal := fun _ =>
    if encodingFails then .error (.external (str "unsupported value")) else .ok (str "{}")
  jsonUnmarshal := fun _ _ => (envelope, none)
  urlJoinPath := fun base path => (base ++ path, none)
  newRequestWithContext := fun method url body =>
    .ok { Method := method, URL := url, Query := [], Header := [], Body := body }
  httpDo := fun _ _ => .ok { StatusCode := statusCode, Body := bytesNewReader (str "{}") }

/-- A gateway double whose encoder is `json.Marshal` on the order request:
every request is answered with the given HTTP status, and decoding the body
reports the given error, or gives the given envelope when there is none. -/
def sampleGateway (statusCode : Int) (envelope : OrderResponse) (decodingError : Option Error) :
    World where
  jsonMarshal := fun order => .ok (jsonMarshalOrder order)
  jsonUnmarshal := fun _ target =>
    match decodingError with
    | some err => (target, some err)
    | none => (envelope, none)
  urlJoinPath := fun base path => (base ++ path, none)
  newRequestWithContext := fun method url body =>
    .ok { Method := method, URL := url, Query := [], Header := [], Body := body }
  httpDo := fun _ _ => .ok { StatusCode := statusCode, Body := bytesNewReader (str "{}") }

/-- An envelope with the given status and an otherwise recognisable preview. -/
def sampleEnvelope (status : GoString) : OrderResponse :=
  { zeroOrderResponse with
    Status := status
    Message := str "m"
    Preview := { zeroOrderResponse.Preview with ID := str "42" } }

/-- A client with the key `secret` and the default timeout. -/
def sampleClient : Client := NewClient { ApiKey := str "secret", ClientTimeout := 0 }

/-- An order request with an external id. -/
def sampleOrder : OrderRequest :=
  { Amount := { CurrencyCode := TON, Amount := str "1.5" }, Description := str "a book",
    ReturnURL := [], FailReturnURL := [], CustomData := [], ExternalID := str "ext-1",
    TimeoutSeconds := ⟨60, by decide⟩, CustomerTelegramID := ⟨7, by decide⟩ }

/-- A keyed function standing in for the MAC in examples: key, then message. -/
def sampleMac (key message : GoString) : GoString := key ++ message

/-- An event with the given date and otherwise the zero value. -/
def sampleEvent (date : GoString) : Event := { zeroEvent with EventDateTime := date }

/-- A body whose second event has a string where the number of `eventId`
belongs: well-formed JSON that does not fit the event type. -/
def sampleMistypedBody : GoString :=
  str "[\x7b\"eventId\":1\x7d,\x7b\"eventId\":\"x\"\x7d]"

/-- The document of `sampleMistypedBody`. -/
def sampleMistypedDocument : Json :=
  .arr [.obj [(str "eventId", .num (str "1"))], .obj [(str "eventId", .str (str "x"))]]

/-- A body that breaks off inside an array: not a JSON document. -/
def sampleTruncatedBody : GoString := str "[1, 2"

/-! ## Base64 is injective -/

theorem encodeStd_getD_injective :
    ∀ i j : Fin 64, encodeStd.getD i.val 0 = encodeStd.getD j.val 0 → i = j := by
  decide

theorem encodeStd_getD_ne_pad : ∀ i : Fin 64, encodeStd.getD i.val 0 ≠ padChar := by
  decide

theorem and_63_eq_mod (n : Nat) : n &&& 0x3F = n % 64 :=
  Nat.and_pow_two_sub_one_eq_mod n 6

theorem encodeSextet_eq (val shift : Nat) :
    encodeSextet val shift = encodeStd.getD (val / 2 ^ shift % 64) 0 := by
  simp only [encodeSextet, and_63_eq_mod, Nat.shiftRight_eq_div_pow]

theorem encodeSextet_inj {v w s : Nat} (h : encodeSextet v s = encodeSextet w s) :
    v / 2 ^ s % 64 = w / 2 ^ s % 64 := by
  rw [encodeSextet_eq, encodeSextet_eq] at h
  have := encodeStd_getD_injective ⟨v / 2 ^ s % 64, Nat.mod_lt _ (by decide)⟩
    ⟨w / 2 ^ s % 64, Nat.mod_lt _ (by decide)⟩ h
  exact congrArg Fin.val this

theorem encodeSextet_ne_pad (v s : Nat) : encodeSextet v s ≠ padChar := by
  rw [encodeSextet_eq]
  exact encodeStd_getD_ne_pad ⟨v / 2 ^ s % 64, Nat.mod_lt _ (by decide)⟩

theorem pack3_eq (a b c : Byte) :
    a.val <<< 16 ||| b.val <<< 8 ||| c.val = a.val * 65536 + b.val * 256 + c.val := by
  have hc : c.val < 2 ^ 8 := c.isLt
  have hb : b.val < 2 ^ 8 := b.isLt
  have h1 : a.val <<< 16 ||| b.val <<< 8 = 2 ^ 8 * (2 ^ 8 * a.val + b.val) := by
    have h2 : b.val <<< 8 = 2 ^ 8 * b.val := by rw [Nat.shiftLeft_eq, Nat.mul_comm]
    have h3 : a.val <<< 16 = 2 ^ 16 * a.val := by rw [Nat.shiftLeft_eq, Nat.mul_comm]
    have h4 : (2 : Nat) ^ 8 * b.val < 2 ^ 16 := by omega
    rw [h2, h3, ← Nat.mul_add_lt_is_or h4]
    ring
  rw [h1, ← Nat.mul_add_lt_is_or hc]
  ring

theorem pack2_eq (a b : Byte) :
    a.val <<< 16 ||| b.val <<< 8 = a.val * 65536 + b.val * 256 := by
  have h := pack3_eq a b 0
  simpa using h

theorem pack1_eq (a : Byte) : a.val <<< 16 = a.val * 65536 := by
  rw [Nat.shiftLeft_eq]

theorem group3_inj {a b c a' b' c' : Byte}
    (h0 : encodeSextet (a.val <<< 16 ||| b.val <<< 8 ||| c.val) 18
        = encodeSextet (a'.val <<< 16 ||| b'.val <<< 8 ||| c'.val) 18)
    (h1 : encodeSextet (a.val <<< 16 ||| b.val <<< 8 ||| c.val) 12
        = encodeSextet (a'.val <<< 16 ||| b'.val <<< 8 ||| c'.val) 12)
    (h2 : encodeSextet (a.val <<< 16 ||| b.val <<< 8 ||| c.val) 6
        = encodeSextet (a'.val <<< 16 ||| b'.val <<< 8 ||| c'.val) 6)
    (h3 : encodeSextet (a.val <<< 16 ||| b.val <<< 8 ||| c.val) 0
        = encodeSextet (a'.val <<< 16 ||| b'.val <<< 8 ||| c'.val) 0) :
    a = a' ∧ b = b' ∧ c = c' := by
  have e0 := encodeSextet_inj h0
  have e1 := encodeSextet_inj h1
  have e2 := encodeSextet_inj h2
  have e3 := encodeSextet_inj h3
  rw [pack3_eq, pack3_eq] at e0 e1 e2 e3
  norm_num at e0 e1 e2 e3
  have ha := a.isLt
  have hb := b.isLt
  have hc := c.isLt
  have ha' := a'.isLt
  have hb' := b'.isLt
  have hc' := c'.isLt
  refine ⟨Fin.ext ?_, Fin.ext ?_, Fin.ext ?_⟩ <;> omega

theorem group2_inj {a b a' b' : Byte}
    (h0 : encodeSextet (a.val <<< 16 ||| b.val <<< 8) 18
        = encodeSextet (a'.val <<< 16 ||| b'.val <<< 8) 18)
    (h1 : encodeSextet (a.val <<< 16 ||| b.val <<< 8) 12
        = encodeSextet (a'.val <<< 16 ||| b'.val <<< 8) 12)
    (h2 : encodeSextet (a.val <<< 16 ||| b.val <<< 8) 6
        = encodeSextet (a'.val <<< 16 ||| b'.val <<< 8) 6) :
    a = a' ∧ b = b' := by
  have e0 := encodeSextet_inj h0
  have e1 := encodeSextet_inj h1
  have e2 := encodeSextet_inj h2
  rw [pack2_eq, pack2_eq] at e0 e1 e2
  norm_num at e0 e1 e2
  have ha := a.isLt
  have hb := b.isLt
  have ha' := a'.isLt
  have hb' := b'.isLt
  refine ⟨Fin.ext ?_, Fin.ext ?_⟩ <;> omega

theorem group1_inj {a a' : Byte}
    (h0 : encodeSextet (a.val <<< 16) 18 = encodeSextet (a'.val <<< 16) 18)
    (h1 : encodeSextet (a.val <<< 16) 12 = encodeSextet (a'.val <<< 16) 12) :
    a = a' := by
  have e0 := encodeSextet_inj h0
  have e1 := encodeSextet_inj h1
  rw [pack1_eq, pack1_eq] at e0 e1
  norm_num at e0 e1
  have ha := a.isLt
  have ha' := a'.isLt
  exact Fin.ext (by omega)

/-- Distinct byte strings have distinct standard base64 encodings. -/
theorem base64Encode_injective :
    ∀ xs ys : GoString, base64Encode xs = base64Encode ys → xs = ys
  | a :: b :: c :: rest, a' :: b' :: c' :: rest', h => by
    simp only [base64Encode, List.cons.injEq] at h
    obtain ⟨h0, h1, h2, h3, hr⟩ := h
    obtain ⟨ea, eb, ec⟩ := group3_inj h0 h1 h2 h3
    rw [ea, eb, ec, base64Encode_injective rest rest' hr]
  | _ :: _ :: _ :: _, [_, _], h => by
    simp only [base64Encode, List.cons.injEq] at h
    exact absurd h.2.2.2.1 (encodeSextet_ne_pad _ _)
  | _ :: _ :: _ :: _, [_], h => by
    simp only [base64Encode, List.cons.injEq] at h
    exact absurd h.2.2.1 (encodeSextet_ne_pad _ _)
  | _ :: _ :: _ :: _, [], h => by simp [base64Encode] at h
  | [_, _], _ :: _ :: _ :: _, h => by
    simp only [base64Encode, List.cons.injEq] at h
    exact absurd h.2.2.2.1.symm (encodeSextet_ne_pad _ _)
  | [a, b], [a', b'], h => by
    simp only [base64Encode, List.cons.injEq] at h
    obtain ⟨ea, eb⟩ := group2_inj h.1 h.2.1 h.2.2.1
    rw [ea, eb]
  | [_, _], [_], h => by
    simp only [base64Encode, List.cons.injEq] at h
    exact absurd h.2.2.1 (encodeSextet_ne_pad _ _)
  | [_, _], [], h => by simp [base64Encode] at h
  | [_], _ :: _ :: _ :: _, h => by
    simp only [base64Encode, List.cons.injEq] at h
    exact absurd h.2.2.1.symm (encodeSextet_ne_pad _ _)
  | [_], [_, _], h => by
    simp only [base64Encode, List.cons.injEq] at h
    exact absurd h.2.2.1.symm (encodeSextet_ne_pad _ _)
  | [a], [a'], h => by
    simp only [base64Encode, List.cons.injEq] at h
    rw [group1_inj h.1 h.2.1]
  | [_], [], h => by simp [base64Encode] at h
  | [], _ :: _ :: _ :: _, h => by simp [base64Encode] at h
  | [], [_, _], h => by simp [base64Encode] at h
  | [], [_], h => by simp [base64Encode] at h
  | [], [], _ => rfl

/-! ## UTF-8 and string literals: what is written is read back -/

theorem fin_ofNat_eq (b : Byte) {n : Nat} (h : n = b.val) : (Fin.ofNat n : Byte) = b := by
  subst h
  apply Fin.ext
  simp [Fin.ofNat]

theorem firstSize_two {p : Nat} (h : 0xC2 ≤ p ∧ p < 0xE0) : firstSize p = 2 := by
  unfold firstSize
  split_ifs <;> omega

theorem firstSize_three {p : Nat} (h : 0xE0 ≤ p ∧ p < 0xF0) : firstSize p = 3 := by
  unfold firstSize
  split_ifs <;> omega

theorem firstSize_four {p : Nat} (h : 0xF0 ≤ p ∧ p < 0xF5) : firstSize p = 4 := by
  unfold firstSize
  split_ifs <;> omega

theorem accept_two {p : Nat} (h : 0xC2 ≤ p ∧ p < 0xE0) : acceptLo p = 0x80 ∧ acceptHi p = 0xBF := by
  unfold acceptLo acceptHi
  constructor <;> split_ifs <;> omega

theorem decodeRune_of_runeAt {p : GoString} {r n : Nat} (h : RuneAt p r n) :
    decodeRune p = (r, n) := by
  cases h with
  | two b b1 q h0 h1 =>
    have hs := firstSize_two h0
    obtain ⟨hl, hh⟩ := accept_two h0
    simp only [decodeRune, hs, hl, hh, List.getD_cons_zero, List.length_cons]
    rw [if_neg (by omega), if_neg (by omega), if_neg (by omega), if_neg (by omega),
      if_pos (by omega)]
  | three b b1 b2 q h0 h1 h2 =>
    have hs := firstSize_three h0
    simp only [decodeRune, hs, List.getD_cons_zero, List.getD_cons_succ, List.length_cons]
    rw [if_neg (by omega), if_neg (by omega), if_neg (by omega), if_neg (by omega),
      if_neg (by omega), if_neg (by omega), if_pos (by omega)]
  | four b b1 b2 b3 q h0 h1 h2 h3 =>
    have hs := firstSize_four h0
    simp only [decodeRune, hs, List.getD_cons_zero, List.getD_cons_succ, List.length_cons]
    rw [if_neg (by omega), if_neg (by omega), if_neg (by omega), if_neg (by omega),
      if_neg (by omega), if_neg (by omega), if_neg (by omega), if_neg (by omega)]

theorem firstSize_zero {p : Nat} (h : 0x80 ≤ p) (h2 : ¬ (0xC2 ≤ p ∧ p < 0xE0))
    (h3 : ¬ (0xE0 ≤ p ∧ p < 0xF0)) (h4 : ¬ (0xF0 ≤ p ∧ p < 0xF5)) : firstSize p = 0 := by
  unfold firstSize
  split_ifs <;> omega

theorem decodeRune_invalid_or (b : Byte) (rest : GoString) (hb : 0x80 ≤ b.val) :
    decodeRune (b :: rest) = (RuneError, 1) ∨
      RuneAt (b :: rest) (decodeRune (b :: rest)).1 (decodeRune (b :: rest)).2 := by
  by_cases h2 : 0xC2 ≤ b.val ∧ b.val < 0xE0
  · match rest with
    | [] =>
      left
      simp only [decodeRune, firstSize_two h2, List.length_nil]
      rw [if_neg (by omega), if_neg (by omega), if_pos (by omega)]
    | b1 :: q =>
      by_cases h1 : 0x80 ≤ b1.val ∧ b1.val ≤ 0xBF
      · right
        rw [decodeRune_of_runeAt (RuneAt.two b b1 q h2 h1)]
        exact RuneAt.two b b1 q h2 h1
      · left
        obtain ⟨hl, hh⟩ := accept_two h2
        simp only [decodeRune, firstSize_two h2, hl, hh, List.getD_cons_zero, List.length_cons]
        rw [if_neg (by omega), if_neg (by omega), if_neg (by omega), if_pos (by omega)]
  by_cases h3 : 0xE0 ≤ b.val ∧ b.val < 0xF0
  · match rest with
    | [] =>
      left
      simp only [decodeRune, firstSize_three h3, List.length_nil]
      rw [if_neg (by omega), if_neg (by omega), if_pos (by omega)]
    | [b1] =>
      left
      simp only [decodeRune, firstSize_three h3, List.length_cons, List.length_nil]
      rw [if_neg (by omega), if_neg (by omega), if_pos (by omega)]
    | b1 :: b2 :: q =>
      by_cases h1 : acceptLo b.val ≤ b1.val ∧ b1.val ≤ acceptHi b.val
      · by_cases hc : 0x80 ≤ b2.val ∧ b2.val ≤ 0xBF
        · right
          rw [decodeRune_of_runeAt (RuneAt.three b b1 b2 q h3 h1 hc)]
          exact RuneAt.three b b1 b2 q h3 h1 hc
        · left
          simp only [decodeRune, firstSize_three h3, List.getD_cons_zero, List.getD_cons_succ,
            List.length_cons]
          rw [if_neg (by omega), if_neg (by omega), if_neg (by omega), if_neg (by omega),
            if_neg (by omega), if_pos (by omega)]
      · left
        simp only [decodeRune, firstSize_three h3, List.getD_cons_zero, List.length_cons]
        rw [if_neg (by omega), if_neg (by omega), if_neg (by omega), if_pos (by omega)]
  by_cases h4 : 0xF0 ≤ b.val ∧ b.val < 0xF5
  · match rest with
    | [] =>
      left
      simp only [decodeRune, firstSize_four h4, List.length_nil]
      rw [if_neg (by omega), if_neg (by omega), if_pos (by omega)]
    | [b1] =>
      left
      simp only [decodeRune, firstSize_four h4, List.length_cons, List.length_nil]
      rw [if_neg (by omega), if_neg (by omega), if_pos (by omega)]
    | [b1, b2] =>
      left
      simp only [decodeRune, firstSize_four h4, List.length_cons, List.length_nil]
      rw [if_neg (by omega), if_neg (by omega), if_pos (by omega)]
    | b1 :: b2 :: b3 :: q =>
      by_cases h1 : acceptLo b.val ≤ b1.val ∧ b1.val ≤ acceptHi b.val
      · by_cases hc : 0x80 ≤ b2.val ∧ b2.val ≤ 0xBF
        · by_cases hd : 0x80 ≤ b3.val ∧ b3.val ≤ 0xBF
          · right
            rw [decodeRune_of_runeAt (RuneAt.four b b1 b2 b3 q h4 h1 hc hd)]
            exact RuneAt.four b b1 b2 b3 q h4 h1 hc hd
          · left
            simp only [decodeRune, firstSize_four h4, List.getD_cons_zero, List.getD_cons_succ,
              List.length_cons]
            rw [if_neg (by omega), if_neg (by omega), if_neg (by omega), if_neg (by omega),
              if_neg (by omega), if_neg (by omega), if_neg (by omega), if_pos (by omega)]
        · left
          simp only [decodeRune, firstSize_four h4, List.getD_cons_zero, List.getD_cons_succ,
            List.length_cons]
          rw [if_neg (by omega), if_neg (by omega), if_neg (by omega), if_neg (by omega),
            if_neg (by omega), if_pos (by omega)]
      · left
        simp only [decodeRune, firstSize_four h4, List.getD_cons_zero, List.length_cons]
        rw [if_neg (by omega), if_neg (by omega), if_neg (by omega), if_pos (by omega)]
  left
  simp only [decodeRune, firstSize_zero hb h2 h3 h4]
  rw [if_neg (by omega), if_pos trivial]

theorem acceptLo_cases (p : Nat) :
    (p = 0xE0 ∧ acceptLo p = 0xA0) ∨ (p = 0xF0 ∧ acceptLo p = 0x90) ∨
      (p ≠ 0xE0 ∧ p ≠ 0xF0 ∧ acceptLo p = 0x80) := by
  unfold acceptLo
  split_ifs <;> omega

theorem acceptHi_cases (p : Nat) :
    (p = 0xED ∧ acceptHi p = 0x9F) ∨ (p = 0xF4 ∧ acceptHi p = 0x8F) ∨
      (p ≠ 0xED ∧ p ≠ 0xF4 ∧ acceptHi p = 0xBF) := by
  unfold acceptHi
  split_ifs <;> omega

/-- A well-formed rune re-encodes to the bytes it was decoded from. -/
theorem encodeRune_of_runeAt {p : GoString} {r n : Nat} (h : RuneAt p r n) :
    encodeRune r = p.take n := by
  cases h with
  | two b b1 q h0 h1 =>
    have hb := b.isLt
    have hb1 := b1.isLt
    simp only [encodeRune, List.take_succ_cons, List.take_zero]
    rw [if_neg (by omega), if_pos (by omega)]
    rw [fin_ofNat_eq b (by omega), fin_ofNat_eq b1 (by omega)]
  | three b b1 b2 q h0 h1 h2 =>
    have hb := b.isLt
    have hb1 := b1.isLt
    have hb2 := b2.isLt
    have hlo := acceptLo_cases b.val
    have hhi := acceptHi_cases b.val
    simp only [encodeRune, List.take_succ_cons, List.take_zero]
    rw [if_neg (by omega), if_neg (by omega), if_neg (by omega), if_pos (by omega)]
    rw [fin_ofNat_eq b (by omega), fin_ofNat_eq b1 (by omega),
      fin_ofNat_eq b2 (by omega)]
  | four b b1 b2 b3 q h0 h1 h2 h3 =>
    have hb := b.isLt
    have hb1 := b1.isLt
    have hb2 := b2.isLt
    have hb3 := b3.isLt
    have hlo := acceptLo_cases b.val
    have hhi := acceptHi_cases b.val
    simp only [encodeRune, List.take_succ_cons, List.take_zero]
    rw [if_neg (by omega), if_neg (by omega), if_neg (by omega), if_neg (by omega)]
    rw [fin_ofNat_eq b (by omega), fin_ofNat_eq b1 (by omega),
      fin_ofNat_eq b2 (by omega), fin_ofNat_eq b3 (by omega)]

/-- What follows a well-formed rune does not change how it decodes. -/
theorem runeAt_take_append {p : GoString} {r n : Nat} (h : RuneAt p r n) (q : GoString) :
    RuneAt (p.take n ++ q) r n := by
  cases h with
  | two b b1 q' h0 h1 => exact RuneAt.two b b1 q h0 h1
  | three b b1 b2 q' h0 h1 h2 => exact RuneAt.three b b1 b2 q h0 h1 h2
  | four b b1 b2 b3 q' h0 h1 h2 h3 => exact RuneAt.four b b1 b2 b3 q h0 h1 h2 h3

theorem hexVal_hexDigit : ∀ k : Fin 16, hexVal (hexDigit k.val) = some k.val := by decide

theorem hexVal_hexDigit_nat {k : Nat} (h : k < 16) : hexVal (hexDigit k) = some k :=
  hexVal_hexDigit ⟨k, h⟩

theorem getu4_escape (a b c d : Nat) (ha : a < 16) (hb : b < 16) (hc : c < 16) (hd : d < 16)
    (x : GoString) :
    getu4 (92 :: 117 :: hexDigit a :: hexDigit b :: hexDigit c :: hexDigit d :: x)
      = some (((a * 16 + b) * 16 + c) * 16 + d) := by
  simp [getu4, hexVal_hexDigit_nat ha, hexVal_hexDigit_nat hb, hexVal_hexDigit_nat hc,
    hexVal_hexDigit_nat hd]

theorem scanString_safe (f : Nat) (b : Byte) (x : GoString) (h : b.val < 0x80)
    (hs : htmlSafe b = true) :
    scanString (f + 1) (b :: x) = (scanString f x).map (fun vr => (b :: vr.1, vr.2)) := by
  simp only [htmlSafe, Bool.and_eq_true, decide_eq_true_eq, bne_iff_ne, ne_eq] at hs
  obtain ⟨⟨⟨⟨⟨h0, h1⟩, h2⟩, h3⟩, h4⟩, h5⟩ := hs
  simp only [scanString]
  rw [if_neg h1, if_neg h5, if_neg (by omega), if_pos h]

theorem encodeRune_ascii (b : Byte) (h : b.val < 0x80) : encodeRune b.val = [b] := by
  simp only [encodeRune]
  rw [if_pos (by omega), fin_ofNat_eq b rfl]

theorem getu4_ascii (b : Byte) (x : GoString) :
    getu4 (92 :: 117 :: 48 :: 48 :: hexDigit (b.val / 16) :: hexDigit (b.val % 16) :: x)
      = some b.val := by
  have hb := b.isLt
  have h48 : (48 : Byte) = hexDigit 0 := by decide
  rw [h48, getu4_escape 0 0 (b.val / 16) (b.val % 16) (by omega) (by omega) (by omega) (by omega)]
  congr 1
  omega

theorem scanString_unicode_escape (f : Nat) (h1 h2 h3 h4 : Byte) (x : GoString) (rr : Nat)
    (hg : getu4 (92 :: 117 :: h1 :: h2 :: h3 :: h4 :: x) = some rr)
    (hns : ¬ (0xD800 ≤ rr ∧ rr < 0xE000)) :
    scanString (f + 1) (92 :: 117 :: h1 :: h2 :: h3 :: h4 :: x)
      = (scanString f x).map (fun vr => (encodeRune rr ++ vr.1, vr.2)) := by
  simp only [scanString, hg, if_true, if_neg hns, List.drop_succ_cons, List.drop_zero]
  rw [if_neg (by decide)]

theorem scanString_simple_escape (f : Nat) (e ch : Byte) (x : GoString) (he : e ≠ 117)
    (hs : simpleEscape e = some ch) :
    scanString (f + 1) (92 :: e :: x) = (scanString f x).map (fun vr => (ch :: vr.1, vr.2)) := by
  simp only [scanString, hs, if_true, if_neg he]
  rw [if_neg (by decide)]

theorem scanString_escapeByte (f : Nat) (b : Byte) (x : GoString) (h : b.val < 0x80) :
    scanString (f + 1) (escapeByte b ++ x)
      = (scanString f x).map (fun vr => (b :: vr.1, vr.2)) := by
  unfold escapeByte
  split_ifs with c1 c2 c3 c4 c5 c6
  · rcases c1 with rfl | rfl
    · exact scanString_simple_escape f 92 92 x (by decide) (by decide)
    · exact scanString_simple_escape f 34 34 x (by decide) (by decide)
  · subst c2
    exact scanString_simple_escape f 98 8 x (by decide) (by decide)
  · subst c3
    exact scanString_simple_escape f 102 12 x (by decide) (by decide)
  · subst c4
    exact scanString_simple_escape f 110 10 x (by decide) (by decide)
  · subst c5
    exact scanString_simple_escape f 114 13 x (by decide) (by decide)
  · subst c6
    exact scanString_simple_escape f 116 9 x (by decide) (by decide)
  · have := scanString_unicode_escape f 48 48 (hexDigit (b.val / 16)) (hexDigit (b.val % 16)) x
      b.val (getu4_ascii b x) (by omega)
    rw [encodeRune_ascii b h] at this
    exact this

theorem scanString_rune (f : Nat) {p : GoString} {r n : Nat} (h : RuneAt p r n) (x : GoString) :
    scanString (f + 1) (p.take n ++ x)
      = (scanString f x).map (fun vr => (p.take n ++ vr.1, vr.2)) := by
  have hd := decodeRune_of_runeAt (runeAt_take_append h x)
  have he := encodeRune_of_runeAt h
  have hlen : (p.take n).length = n := by
    cases h <;> simp
  have hdrop : (p.take n ++ x).drop n = x := by
    have := List.drop_left (List.take n p) x
    rwa [hlen] at this
  have hhead : ∃ b t, p.take n ++ x = b :: t ∧ 0xC2 ≤ b.val := by
    cases h with
    | two b b1 q h0 h1 => exact ⟨b, _, rfl, h0.1⟩
    | three b b1 b2 q h0 h1 h2 => exact ⟨b, _, rfl, by omega⟩
    | four b b1 b2 b3 q h0 h1 h2 h3 => exact ⟨b, _, rfl, by omega⟩
  obtain ⟨b, t, hbt, hb⟩ := hhead
  rw [hbt] at hd hdrop
  rw [hbt]
  have hb34 : b ≠ 34 := fun e => by rw [e] at hb; exact absurd hb (by decide)
  have hb92 : b ≠ 92 := fun e => by rw [e] at hb; exact absurd hb (by decide)
  simp only [scanString, hd, hdrop, he]
  rw [if_neg hb34, if_neg hb92, if_neg (by omega), if_neg (by omega)]

theorem scanString_separator (f : Nat) {p : GoString} {r n : Nat} (h : RuneAt p r n)
    (hr : r = 0x2028 ∨ r = 0x2029) (x : GoString) :
    scanString (f + 1) ([92, 117, 50, 48, 50, hexDigit (r % 16)] ++ x)
      = (scanString f x).map (fun vr => (p.take n ++ vr.1, vr.2)) := by
  have h50 : (50 : Byte) = hexDigit 2 := by decide
  have h48 : (48 : Byte) = hexDigit 0 := by decide
  have hg : getu4 (92 :: 117 :: 50 :: 48 :: 50 :: hexDigit (r % 16) :: x) = some r := by
    rw [h50, h48, getu4_escape 2 0 2 (r % 16) (by omega) (by omega) (by omega) (by omega)]
    congr 1
    omega
  have := scanString_unicode_escape f 50 48 50 (hexDigit (r % 16)) x r hg (by omega)
  rw [encodeRune_of_runeAt h] at this
  exact this

theorem decodeRune_ascii (b : Byte) (t : GoString) (h : b.val < 0x80) :
    decodeRune (b :: t) = (b.val, 1) := by
  simp only [decodeRune]
  rw [if_pos h]

theorem appendStringLoop_nil (f : Nat) : appendStringLoop f [] = [] := by
  cases f <;> rfl

theorem scanString_quote (f : Nat) (rest : GoString) :
    scanString (f + 1) (34 :: rest) = some ([], rest) := by
  simp only [scanString, if_true]

theorem length_drop_runeAt {p : GoString} {r n : Nat} (h : RuneAt p r n) :
    (p.drop n).length + 2 ≤ p.length ∧ 2 ≤ n := by
  cases h <;> simp

theorem escapeByte_length_pos (b : Byte) : 0 < (escapeByte b).length := by
  unfold escapeByte
  split_ifs <;> simp

theorem scanString_appendStringLoop (m : Nat) :
    ∀ (s : GoString), s.length ≤ m → ∀ (fv fa fs : Nat) (rest : GoString),
      s.length ≤ fv → s.length ≤ fa → validStringLoop fv s = true →
      (appendStringLoop fa s).length < fs →
      scanString fs (appendStringLoop fa s ++ 34 :: rest) = some (s, rest) := by
  induction m with
  | zero =>
    intro s hs fv fa fs rest _ _ _ hfs
    have : s = [] := List.length_eq_zero.mp (by omega)
    subst this
    obtain ⟨f, rfl⟩ : ∃ f, fs = f + 1 := ⟨fs - 1, by omega⟩
    rw [appendStringLoop_nil, List.nil_append, scanString_quote]
  | succ m ih =>
    intro s hs fv fa fs rest hfv hfa hv hfs
    match s with
    | [] =>
      obtain ⟨f, rfl⟩ : ∃ f, fs = f + 1 := ⟨fs - 1, by omega⟩
      rw [appendStringLoop_nil, List.nil_append, scanString_quote]
    | b :: t =>
      simp only [List.length_cons] at hs hfv hfa
      obtain ⟨fv, rfl⟩ : ∃ f, fv = f + 1 := ⟨fv - 1, by omega⟩
      obtain ⟨fa, rfl⟩ : ∃ f, fa = f + 1 := ⟨fa - 1, by omega⟩
      obtain ⟨fs, rfl⟩ : ∃ f, fs = f + 1 := ⟨fs - 1, by omega⟩
      by_cases hb : b.val < 0x80
      · have hd := decodeRune_ascii b t hb
        have hne : ¬ (b.val = RuneError ∧ True) := by unfold RuneError; omega
        simp only [validStringLoop, hd, List.drop_succ_cons, List.drop_zero] at hv
        rw [if_neg hne] at hv
        have hesc := escapeByte_length_pos b
        simp only [appendStringLoop, if_pos hb] at hfs ⊢
        rw [List.append_assoc]
        rw [List.length_append] at hfs
        by_cases hsafe : htmlSafe b = true
        · rw [if_pos hsafe] at hfs ⊢
          simp only [List.length_singleton] at hfs
          rw [List.singleton_append, scanString_safe fs b _ hb hsafe,
            ih t (by omega) fv fa fs rest (by omega) (by omega) hv (by omega)]
          rfl
        · rw [if_neg hsafe] at hfs ⊢
          rw [scanString_escapeByte fs b _ hb,
            ih t (by omega) fv fa fs rest (by omega) (by omega) hv (by omega)]
          rfl
      · rcases decodeRune_invalid_or b t (by omega) with hbad | hrune
        · simp only [validStringLoop, hbad] at hv
          simp at hv
        · rcases hcs : decodeRune (b :: t) with ⟨r, n⟩
          rw [hcs] at hrune
          simp only at hrune
          obtain ⟨hlen, hn⟩ := length_drop_runeAt hrune
          have hgood : ¬ (r = RuneError ∧ n = 1) := by omega
          simp only [validStringLoop, hcs, if_neg hgood] at hv
          simp only [appendStringLoop, if_neg hb, hcs, if_neg hgood] at hfs ⊢
          simp only [List.length_cons] at hlen
          by_cases hsep : r = 0x2028 ∨ r = 0x2029
          · rw [if_pos hsep] at hfs ⊢
            rw [List.length_append] at hfs
            simp only [List.length_cons, List.length_nil] at hfs
            rw [List.append_assoc, scanString_separator fs hrune hsep,
              ih _ (by omega) fv fa fs rest (by omega) (by omega) hv (by omega)]
            simp only [Option.map_some', List.take_append_drop]
          · rw [if_neg hsep] at hfs ⊢
            rw [List.length_append, List.length_take, List.length_cons] at hfs
            rw [List.append_assoc, scanString_rune fs hrune,
              ih _ (by omega) fv fa fs rest (by omega) (by omega) hv (by omega)]
            simp only [Option.map_some', List.take_append_drop]

/-! ## Decimal integers: what is written is read back -/

theorem digitByte_val {u : Nat} (h : u < 10) : (Fin.ofNat (u + 48) : Byte).val = u + 48 := by
  simp only [Fin.ofNat, Fin.val_mk]
  omega

theorem isDigit_digitByte {u : Nat} (h : u < 10) : isDigit (Fin.ofNat (u + 48)) = true := by
  simp only [isDigit, digitByte_val h, Bool.and_eq_true, decide_eq_true_eq]
  omega

theorem digitsValue_append_singleton (ds : GoString) (d : Byte) :
    digitsValue (ds ++ [d]) = digitsValue ds * 10 + (d.val - 48) := by
  simp [digitsValue, List.foldl_append]

theorem digitByte_ne_zero {u : Nat} (h : u < 10) (h0 : u ≠ 0) :
    (Fin.ofNat (u + 48) : Byte) ≠ 48 := by
  intro e
  have := congrArg Fin.val e
  rw [digitByte_val h] at this
  simp at this
  omega

theorem formatBits_spec : ∀ (fuel u : Nat) (acc : GoString), u < 10 ^ (fuel + 1) →
    ∃ ds, formatBits (fuel + 1) u acc = ds ++ acc ∧ ds ≠ [] ∧ (∀ d ∈ ds, isDigit d = true) ∧
      digitsValue ds = u ∧ (u ≠ 0 → ds.head? ≠ some 48) ∧ (u = 0 → ds = [48]) := by
  intro fuel
  induction fuel with
  | zero =>
    intro u acc h
    have hu : u < 10 := by simpa using h
    refine ⟨[Fin.ofNat (u + 48)], ?_, by simp, ?_, ?_, ?_, ?_⟩
    · simp [formatBits, hu]
    · intro d hd
      rw [List.mem_singleton.mp hd]
      exact isDigit_digitByte hu
    · simp [digitsValue, digitByte_val hu]
    · intro h0
      simp only [List.head?_cons, ne_eq, Option.some.injEq]
      exact digitByte_ne_zero hu h0
    · rintro rfl
      rfl
  | succ f ih =>
    intro u acc h
    by_cases hu : u < 10
    · refine ⟨[Fin.ofNat (u + 48)], ?_, by simp, ?_, ?_, ?_, ?_⟩
      · simp [formatBits, hu]
      · intro d hd
        rw [List.mem_singleton.mp hd]
        exact isDigit_digitByte hu
      · simp [digitsValue, digitByte_val hu]
      · intro h0
        simp only [List.head?_cons, ne_eq, Option.some.injEq]
        exact digitByte_ne_zero hu h0
      · rintro rfl
        rfl
    · have hdiv : u / 10 < 10 ^ (f + 1) := by
        rw [Nat.div_lt_iff_lt_mul (by decide)]
        calc u < 10 ^ (f + 1 + 1) := h
          _ = 10 ^ (f + 1) * 10 := by ring
      obtain ⟨ds, hds, hne, hall, hval, hhead, -⟩ :=
        ih (u / 10) (Fin.ofNat (u % 10 + 48) :: acc) hdiv
      have hmod : u % 10 < 10 := Nat.mod_lt _ (by decide)
      refine ⟨ds ++ [Fin.ofNat (u % 10 + 48)], ?_, by simp, ?_, ?_, ?_, ?_⟩
      · rw [formatBits, if_neg hu, hds]
        simp
      · intro d hd
        rcases List.mem_append.mp hd with h1 | h1
        · exact hall d h1
        · rw [List.mem_singleton.mp h1]
          exact isDigit_digitByte hmod
      · rw [digitsValue_append_singleton, hval, digitByte_val hmod]
        omega
      · intro _
        have h10 : u / 10 ≠ 0 := by omega
        have := hhead h10
        cases ds with
        | nil => exact absurd rfl hne
        | cons a t => simpa using this
      · intro h0
        omega

theorem formatBits_int64 (i : Int64) :
    ∃ ds, formatBits 20 i.val.natAbs [] = ds ∧ ds ≠ [] ∧ (∀ d ∈ ds, isDigit d = true) ∧
      digitsValue ds = i.val.natAbs ∧ (ds = [48] ∨ ds.head? ≠ some 48) := by
  have hb : i.val.natAbs < 10 ^ (19 + 1) := by
    have := i.property
    omega
  obtain ⟨ds, h1, h2, h3, h4, h5, h6⟩ := formatBits_spec 19 i.val.natAbs [] hb
  refine ⟨ds, by simpa using h1, h2, h3, h4, ?_⟩
  by_cases h0 : i.val.natAbs = 0
  · exact Or.inl (h6 h0)
  · exact Or.inr (h5 h0)

theorem isDigit_ne_sign {d : Byte} (h : isDigit d = true) : d ≠ 45 ∧ d ≠ 43 := by
  simp only [isDigit, Bool.and_eq_true, decide_eq_true_eq] at h
  constructor <;> intro e <;> rw [e] at h <;> exact absurd h.1 (by decide)

theorem all_isDigit {ds : GoString} (h : ∀ d ∈ ds, isDigit d = true) : ds.all isDigit = true := by
  simpa using h

theorem parseInt64_formatInt (i : Int64) : parseInt64 (formatInt i.val) = some i := by
  obtain ⟨ds, h1, h2, h3, h4, -⟩ := formatBits_int64 i
  have hp := i.property
  by_cases hneg : i.val < 0
  · have hv : - (digitsValue ds : Int) = i.val := by rw [h4]; omega
    simp only [formatInt, if_pos hneg, h1, parseInt64, List.head?_cons, List.tail_cons, true_or,
      if_true, all_isDigit h3, not_true_eq_false, or_false, if_neg h2, hv]
    rw [dif_pos hp]
  · cases ds with
    | nil => exact absurd rfl h2
    | cons d t =>
      have hd := isDigit_ne_sign (h3 d (List.mem_cons_self d t))
      have hv : (digitsValue (d :: t) : Int) = i.val := by rw [h4]; omega
      have hc : ¬ (some d = some (45 : Byte) ∨ some d = some (43 : Byte)) := by
        simp [hd.1, hd.2]
      have hc' : ¬ (some d = some (45 : Byte)) := by simp [hd.1]
      simp only [formatInt, if_neg hneg, h1, parseInt64, List.head?_cons, if_neg hc,
        all_isDigit h3, not_true_eq_false, or_false, if_neg h2, if_neg hc', hv]
      rw [dif_pos hp]

/-! ## Documents: what is written is read back -/

theorem spanDigits_append (ds rest : GoString) (hds : ∀ d ∈ ds, isDigit d = true)
    (hrest : NumEnd rest) : spanDigits (ds ++ rest) = (ds, rest) := by
  induction ds with
  | nil =>
    cases rest with
    | nil => rfl
    | cons c t =>
      have := (hrest c t rfl).1
      simp [spanDigits, this]
  | cons d t ih =>
    have hd := hds d (List.mem_cons_self d t)
    have ih' := ih (fun x hx => hds x (List.mem_cons_of_mem d hx))
    simp [spanDigits, hd, ih']

theorem scanFrac_numEnd (rest : GoString) (h : NumEnd rest) : scanFrac rest = some ([], rest) := by
  cases rest with
  | nil => rfl
  | cons c t =>
    have := (h c t rfl).2.1
    simp [scanFrac, this]

theorem scanExp_numEnd (rest : GoString) (h : NumEnd rest) : scanExp rest = some ([], rest) := by
  cases rest with
  | nil => rfl
  | cons c t =>
    have h1 := (h c t rfl).2.2.1
    have h2 := (h c t rfl).2.2.2
    simp [scanExp, h1, h2]

theorem scanInt_canon (ds rest : GoString) (h : CanonDigits ds) (hrest : NumEnd rest) :
    scanInt (ds ++ rest) = some (ds, rest) := by
  obtain ⟨hne, hall, hz⟩ := h
  cases ds with
  | nil => exact absurd rfl hne
  | cons d t =>
    have hd := hall d (List.mem_cons_self d t)
    have ht : ∀ x ∈ t, isDigit x = true := fun x hx => hall x (List.mem_cons_of_mem d hx)
    by_cases h48 : d = 48
    · subst h48
      rcases hz with hz | hz
      · simp only [List.cons.injEq, true_and] at hz
        subst hz
        simp [scanInt]
      · simp at hz
    · simp [scanInt, h48, hd, spanDigits_append t rest ht hrest]

theorem scanNumber_canon (lit rest : GoString) (h : CanonInt lit) (hrest : NumEnd rest) :
    scanNumber (lit ++ rest) = some (lit, rest) := by
  obtain ⟨ds, hds, h | h⟩ := h
  · subst h
    obtain ⟨d, t, hdt⟩ : ∃ d t, lit = d :: t := by
      cases lit with
      | nil => exact absurd rfl hds.1
      | cons d t => exact ⟨d, t, rfl⟩
    have hd : d ≠ 45 := by
      have := hds.2.1 d (by rw [hdt]; exact List.mem_cons_self d t)
      exact (isDigit_ne_sign this).1
    have hneg : ¬ ((lit ++ rest).head? = some 45) := by simp [hdt, hd]
    have h1 := scanInt_canon _ rest hds hrest
    simp only [scanNumber, if_neg hneg, h1, scanFrac_numEnd rest hrest,
      scanExp_numEnd rest hrest]
    simp
  · subst h
    have hneg : (45 :: ds ++ rest).head? = some 45 := rfl
    have h1 := scanInt_canon _ rest hds hrest
    simp [scanNumber, h1, scanFrac_numEnd rest hrest, scanExp_numEnd rest hrest]

theorem startsValue_digit {d : Byte} (t : GoString) (h : isDigit d = true) :
    StartsValue (d :: t) := by
  refine ⟨d, t, rfl, ?_⟩
  simp only [isDigit, Bool.and_eq_true, decide_eq_true_eq] at h
  have h1 : ∀ k : Byte, (k.val < 48 ∨ 57 < k.val) → d ≠ k := by
    intro k hk e
    rw [e] at h
    omega
  have e93 := h1 93 (by decide)
  have e125 := h1 125 (by decide)
  have e44 := h1 44 (by decide)
  have e32 := h1 32 (by decide)
  have e9 := h1 9 (by decide)
  have e13 := h1 13 (by decide)
  have e10 := h1 10 (by decide)
  simp [isSpace, e93, e125, e44, e32, e9, e13, e10]

theorem startsValue_render (j : Json) (h : Canon j) : StartsValue (render j) := by
  cases j with
  | null => exact ⟨110, _, rfl, by decide, by decide, by decide, by decide⟩
  | bool b =>
    cases b
    · exact ⟨102, _, rfl, by decide, by decide, by decide, by decide⟩
    · exact ⟨116, _, rfl, by decide, by decide, by decide, by decide⟩
  | num literal =>
    simp only [Canon] at h
    obtain ⟨ds, hds, h | h⟩ := h
    · subst h
      cases literal with
      | nil => exact absurd rfl hds.1
      | cons d t => exact startsValue_digit t (hds.2.1 d (List.mem_cons_self d t))
    · subst h
      exact ⟨45, _, rfl, by decide, by decide, by decide, by decide⟩
  | str s => exact ⟨34, _, rfl, by decide, by decide, by decide, by decide⟩
  | arr elems => exact ⟨91, _, rfl, by decide, by decide, by decide, by decide⟩
  | obj members => exact ⟨123, _, rfl, by decide, by decide, by decide, by decide⟩

theorem skipSpace_startsValue {s : GoString} (h : StartsValue s) (rest : GoString) :
    skipSpace (s ++ rest) = s ++ rest := by
  obtain ⟨c, t, rfl, hc, -⟩ := h
  simp [skipSpace, hc]

theorem parseValue_cons (f d : Nat) (c : Byte) (rest : GoString) (hc : isSpace c = false) :
    parseValue (f + 1) d (c :: rest) =
      if c = 123 then
        if maxNestingDepth ≤ d then none
        else if (skipSpace rest).head? = some 125 then some (.obj [], (skipSpace rest).tail)
        else (parseMembers f (d + 1) rest).map (fun r => (.obj r.1, r.2))
      else if c = 91 then
        if maxNestingDepth ≤ d then none
        else if (skipSpace rest).head? = some 93 then some (.arr [], (skipSpace rest).tail)
        else (parseElems f (d + 1) rest).map (fun r => (.arr r.1, r.2))
      else if c = 34 then (scanString (rest.length + 1) rest).map (fun vr => (.str vr.1, vr.2))
      else if c = 116 then (expect [114, 117, 101] rest).map (fun r => (.bool true, r))
      else if c = 102 then (expect [97, 108, 115, 101] rest).map (fun r => (.bool false, r))
      else if c = 110 then (expect [117, 108, 108] rest).map (fun r => (.null, r))
      else (scanNumber (c :: rest)).map (fun lr => (.num lr.1, lr.2)) := by
  simp only [parseValue, skipSpace, hc, Bool.false_eq_true, if_false]

theorem parseString_appendString (s rest : GoString) (h : ValidString s = true) (f d : Nat) :
    parseValue (f + 1) d (appendString s ++ rest) = some (.str s, rest) := by
  have hfs : (appendStringLoop s.length s).length
      < (appendStringLoop s.length s ++ 34 :: rest).length + 1 := by
    rw [List.length_append]
    omega
  have := scanString_appendStringLoop s.length s (le_refl _) s.length s.length _ rest (le_refl _)
    (le_refl _) h hfs
  simp only [appendString, List.cons_append, List.append_assoc, List.singleton_append,
    List.nil_append]
  rw [parseValue_cons f d 34 _ (by decide), if_neg (by decide), if_neg (by decide), if_pos rfl,
    this]
  rfl

theorem numEnd_cons {c : Byte} (t : GoString)
    (h : isDigit c = false ∧ c ≠ 46 ∧ c ≠ 101 ∧ c ≠ 69) : NumEnd (c :: t) := by
  intro c' t' e
  simp only [List.cons.injEq] at e
  rw [← e.1]
  exact h

theorem numEnd_renderElems (xs : List Json) (rest : GoString) :
    NumEnd (renderElems false xs ++ rest) := by
  cases xs with
  | nil => exact numEnd_cons _ (by decide)
  | cons x t => exact numEnd_cons _ (by decide)

theorem numEnd_renderMembers (ms : List (GoString × Json)) (rest : GoString) :
    NumEnd (renderMembers false ms ++ rest) := by
  cases ms with
  | nil => exact numEnd_cons _ (by decide)
  | cons x t => exact numEnd_cons _ (by decide)

theorem digit_not_special {d : Byte} (h : isDigit d = true ∨ d = 45) :
    isSpace d = false ∧ d ≠ 123 ∧ d ≠ 91 ∧ d ≠ 34 ∧ d ≠ 116 ∧ d ≠ 102 ∧ d ≠ 110 := by
  have h1 : ∀ k : Byte, (k.val < 48 ∨ 57 < k.val) → k ≠ 45 → d ≠ k := by
    intro k hk hk' e
    rcases h with h | h
    · simp only [isDigit, Bool.and_eq_true, decide_eq_true_eq] at h
      rw [e] at h
      omega
    · exact hk' (e.symm.trans h)
  have e32 := h1 32 (by decide) (by decide)
  have e9 := h1 9 (by decide) (by decide)
  have e13 := h1 13 (by decide) (by decide)
  have e10 := h1 10 (by decide) (by decide)
  refine ⟨by simp [isSpace, e32, e9, e13, e10], h1 _ (by decide) (by decide),
    h1 _ (by decide) (by decide), h1 _ (by decide) (by decide), h1 _ (by decide) (by decide),
    h1 _ (by decide) (by decide), h1 _ (by decide) (by decide)⟩

theorem canonInt_head {lit : GoString} (h : CanonInt lit) :
    ∃ c t, lit = c :: t ∧ (isDigit c = true ∨ c = 45) := by
  obtain ⟨ds, hds, h | h⟩ := h
  · subst h
    cases lit with
    | nil => exact absurd rfl hds.1
    | cons d t => exact ⟨d, t, rfl, Or.inl (hds.2.1 d (List.mem_cons_self d t))⟩
  · exact ⟨45, ds, h, Or.inr rfl⟩

theorem scanKey_appendString (k rest : GoString) (h : ValidString k = true) :
    ∃ body, appendString k ++ rest = 34 :: body ∧
      scanString (body.length + 1) body = some (k, rest) := by
  refine ⟨appendStringLoop k.length k ++ 34 :: rest, by simp [appendString], ?_⟩
  exact scanString_appendStringLoop k.length k (le_refl _) k.length k.length _ rest (le_refl _)
    (le_refl _) h (by rw [List.length_append]; omega)

mutual
/-- Reading back the text of a canonical document gives the document and
leaves what followed the text. -/
theorem parseValue_render : ∀ (j : Json), Canon j → ∀ (fuel d : Nat) (rest : GoString),
    NumEnd rest → 2 * (render j ++ rest).length + 1 ≤ fuel → d + j.height ≤ maxNestingDepth →
    parseValue fuel d (render j ++ rest) = some (j, rest)
  | .null, _, fuel, d, rest, _, hf, _ => by
    obtain ⟨f, rfl⟩ : ∃ f, fuel = f + 1 := ⟨fuel - 1, by omega⟩
    simp only [render, List.cons_append, List.nil_append]
    rw [parseValue_cons f d 110 _ (by decide)]
    simp [expect]
  | .bool true, _, fuel, d, rest, _, hf, _ => by
    obtain ⟨f, rfl⟩ : ∃ f, fuel = f + 1 := ⟨fuel - 1, by omega⟩
    simp only [render, if_true, List.cons_append, List.nil_append]
    rw [parseValue_cons f d 116 _ (by decide)]
    simp [expect]
  | .bool false, _, fuel, d, rest, _, hf, _ => by
    obtain ⟨f, rfl⟩ : ∃ f, fuel = f + 1 := ⟨fuel - 1, by omega⟩
    simp only [render, Bool.false_eq_true, if_false, List.cons_append, List.nil_append]
    rw [parseValue_cons f d 102 _ (by decide)]
    simp [expect]
  | .num literal, hc, fuel, d, rest, hr, hf, _ => by
    obtain ⟨f, rfl⟩ : ∃ f, fuel = f + 1 := ⟨fuel - 1, by omega⟩
    simp only [Canon] at hc
    have hscan := scanNumber_canon literal rest hc hr
    obtain ⟨c, t, hlit, hd⟩ := canonInt_head hc
    obtain ⟨h0, h1, h2, h3, h4, h5, h6⟩ := digit_not_special hd
    simp only [render]
    rw [hlit] at hscan ⊢
    rw [List.cons_append] at hscan ⊢
    rw [parseValue_cons f d c _ h0, if_neg h1, if_neg h2, if_neg h3, if_neg h4, if_neg h5,
      if_neg h6, hscan]
    rfl
  | .str s, hc, fuel, d, rest, _, hf, _ => by
    obtain ⟨f, rfl⟩ : ∃ f, fuel = f + 1 := ⟨fuel - 1, by omega⟩
    simp only [Canon] at hc
    simp only [render]
    exact parseString_appendString s rest hc f d
  | .arr [], _, fuel, d, rest, _, hf, hd => by
    obtain ⟨f, rfl⟩ : ∃ f, fuel = f + 1 := ⟨fuel - 1, by omega⟩
    simp only [Json.height, heightElems] at hd
    simp only [render, renderElems, List.cons_append, List.nil_append]
    rw [parseValue_cons f d 91 _ (by decide), if_neg (by decide), if_pos rfl,
      if_neg (by omega)]
    simp [skipSpace, isSpace]
  | .arr (x :: xs), hc, fuel, d, rest, _, hf, hd => by
    obtain ⟨f, rfl⟩ : ∃ f, fuel = f + 1 := ⟨fuel - 1, by omega⟩
    simp only [Canon] at hc
    simp only [Json.height] at hd
    have hx : Canon x := by simp only [CanonElems] at hc; exact hc.1
    obtain ⟨c, t, hct, hsp, h93, -⟩ := startsValue_render x hx
    have hlen : 2 * (renderElems true (x :: xs) ++ rest).length + 2 ≤ f := by
      simp only [render, List.cons_append, List.length_cons] at hf
      omega
    have ih := parseElems_render (x :: xs) hc (by simp) f (d + 1) rest hlen (by omega)
    simp only [render, List.cons_append]
    rw [parseValue_cons f d 91 _ (by decide), if_neg (by decide), if_pos rfl, if_neg (by omega),
      ih]
    have hhead : ¬ ((skipSpace (renderElems true (x :: xs) ++ rest)).head? = some 93) := by
      simp only [renderElems, if_true, List.nil_append, hct, List.cons_append, skipSpace, hsp,
        Bool.false_eq_true, if_false, List.head?_cons, Option.some.injEq]
      exact h93
    rw [if_neg hhead]
    rfl
  | .obj [], _, fuel, d, rest, _, hf, hd => by
    obtain ⟨f, rfl⟩ : ∃ f, fuel = f + 1 := ⟨fuel - 1, by omega⟩
    simp only [Json.height, heightMembers] at hd
    simp only [render, renderMembers, List.cons_append, List.nil_append]
    rw [parseValue_cons f d 123 _ (by decide), if_pos rfl, if_neg (by omega)]
    simp [skipSpace, isSpace]
  | .obj ((k, v) :: ms), hc, fuel, d, rest, _, hf, hd => by
    obtain ⟨f, rfl⟩ : ∃ f, fuel = f + 1 := ⟨fuel - 1, by omega⟩
    simp only [Canon] at hc
    simp only [Json.height] at hd
    have hlen : 2 * (renderMembers true ((k, v) :: ms) ++ rest).length + 2 ≤ f := by
      simp only [render, List.cons_append, List.length_cons] at hf
      omega
    have ih := parseMembers_render ((k, v) :: ms) hc (by simp) f (d + 1) rest hlen (by omega)
    simp only [render, List.cons_append]
    rw [parseValue_cons f d 123 _ (by decide), if_pos rfl, if_neg (by omega), ih]
    have hhead : ¬ ((skipSpace (renderMembers true ((k, v) :: ms) ++ rest)).head? = some 125) := by
      simp [renderMembers, appendString, skipSpace, isSpace]
    rw [if_neg hhead]
    rfl
/-- Reading back the elements of a canonical array. -/
theorem parseElems_render : ∀ (xs : List Json), CanonElems xs → xs ≠ [] →
    ∀ (fuel d : Nat) (rest : GoString), 2 * (renderElems true xs ++ rest).length + 2 ≤ fuel →
    d + heightElems xs ≤ maxNestingDepth →
    parseElems fuel d (renderElems true xs ++ rest) = some (xs, rest)
  | [], _, h, _, _, _, _, _ => absurd rfl h
  | [x], hc, _, fuel, d, rest, hf, hd => by
    obtain ⟨f, rfl⟩ : ∃ f, fuel = f + 1 := ⟨fuel - 1, by omega⟩
    simp only [CanonElems] at hc
    simp only [heightElems] at hd
    simp only [renderElems, if_true, List.nil_append, List.append_assoc,
      List.singleton_append] at hf ⊢
    have hv := parseValue_render x hc.1 f d (93 :: rest) (numEnd_cons _ (by decide)) (by omega)
      (by omega)
    simp [parseElems, hv, skipSpace, isSpace]
  | x :: y :: t, hc, _, fuel, d, rest, hf, hd => by
    obtain ⟨f, rfl⟩ : ∃ f, fuel = f + 1 := ⟨fuel - 1, by omega⟩
    simp only [CanonElems] at hc
    have hd' : d + x.height ≤ maxNestingDepth ∧ d + heightElems (y :: t) ≤ maxNestingDepth := by
      rw [heightElems] at hd
      omega
    have hc' : CanonElems (y :: t) := by simp only [CanonElems]; exact hc.2
    have hrender : renderElems true (x :: y :: t) ++ rest
        = render x ++ (44 :: (renderElems true (y :: t) ++ rest)) := by
      simp [renderElems]
    rw [hrender] at hf ⊢
    have hv := parseValue_render x hc.1 f d (44 :: (renderElems true (y :: t) ++ rest))
      (numEnd_cons _ (by decide)) (by omega) hd'.1
    have ih := parseElems_render (y :: t) hc' (by simp) f d rest (by
      rw [List.length_append, List.length_cons] at hf
      omega) hd'.2
    simp [parseElems, hv, ih, skipSpace, isSpace]
/-- Reading back the members of a canonical object. -/
theorem parseMembers_render : ∀ (ms : List (GoString × Json)), CanonMembers ms → ms ≠ [] →
    ∀ (fuel d : Nat) (rest : GoString), 2 * (renderMembers true ms ++ rest).length + 2 ≤ fuel →
    d + heightMembers ms ≤ maxNestingDepth →
    parseMembers fuel d (renderMembers true ms ++ rest) = some (ms, rest)
  | [], _, h, _, _, _, _, _ => absurd rfl h
  | [(k, v)], hc, _, fuel, d, rest, hf, hd => by
    obtain ⟨f, rfl⟩ : ∃ f, fuel = f + 1 := ⟨fuel - 1, by omega⟩
    simp only [CanonMembers] at hc
    simp only [heightMembers] at hd
    have hrender : renderMembers true [(k, v)] ++ rest
        = appendString k ++ (58 :: (render v ++ (125 :: rest))) := by
      simp [renderMembers]
    rw [hrender] at hf ⊢
    obtain ⟨body, hbody, hscan⟩ := scanKey_appendString k (58 :: (render v ++ (125 :: rest))) hc.1
    rw [hbody] at hf ⊢
    have hv := parseValue_render v hc.2.1 f d (125 :: rest) (numEnd_cons _ (by decide)) (by
      have := congrArg List.length hbody
      simp only [List.length_append, List.length_cons] at this hf ⊢
      omega) (by omega)
    simp [parseMembers, skipSpace, isSpace, hscan, hv]
  | (k, v) :: m :: t, hc, _, fuel, d, rest, hf, hd => by
    obtain ⟨f, rfl⟩ : ∃ f, fuel = f + 1 := ⟨fuel - 1, by omega⟩
    simp only [CanonMembers] at hc
    have hd' : d + v.height ≤ maxNestingDepth ∧ d + heightMembers (m :: t) ≤ maxNestingDepth := by
      rw [heightMembers] at hd
      omega
    have hc' : CanonMembers (m :: t) := hc.2.2
    have hrender : renderMembers true ((k, v) :: m :: t) ++ rest
        = appendString k ++ (58 :: (render v ++ (44 :: (renderMembers true (m :: t) ++ rest)))) := by
      obtain ⟨k', v'⟩ := m
      simp [renderMembers]
    rw [hrender] at hf ⊢
    obtain ⟨body, hbody, hscan⟩ := scanKey_appendString k
      (58 :: (render v ++ (44 :: (renderMembers true (m :: t) ++ rest)))) hc.1
    rw [hbody] at hf ⊢
    have hl := congrArg List.length hbody
    simp only [List.length_append, List.length_cons] at hl hf
    have hv := parseValue_render v hc.2.1 f d (44 :: (renderMembers true (m :: t) ++ rest))
      (numEnd_cons _ (by decide)) (by
        simp only [List.length_append, List.length_cons]
        omega) hd'.1
    have ih := parseMembers_render (m :: t) hc' (by simp) f d rest (by
      simp only [List.length_append]
      omega) hd'.2
    simp [parseMembers, skipSpace, isSpace, hscan, hv, ih]
end

theorem parseDocument_render (j : Json) (h : Canon j) (hd : j.height ≤ maxNestingDepth) :
    parseDocument (render j) = some j := by
  have hn : NumEnd [] := fun c t e => by simp at e
  have := parseValue_render j h (2 * (render j).length + 1) 0 [] hn (by simp) (by omega)
  rw [List.append_nil] at this
  simp [parseDocument, this, skipSpace]

/-! ## Events: what is written is read back -/

theorem canonInt_formatInt (i : Int64) : CanonInt (formatInt i.val) := by
  obtain ⟨ds, h1, h2, h3, -, h5⟩ := formatBits_int64 i
  refine ⟨ds, ⟨h2, h3, h5⟩, ?_⟩
  unfold formatInt
  split_ifs
  · right; rw [h1]
  · left; rw [h1]

theorem decodeInt64_formatInt (i cur : Int64) :
    decodeInt64 (.num (formatInt i.val)) cur = (i, none) := by
  simp [decodeInt64, parseInt64_formatInt]

theorem findField_moneyAmount :
    findField moneyAmountFields (str "currencyCode") = some 0 ∧
    findField moneyAmountFields (str "amount") = some 1 := by decide

theorem findField_selectPaymentOption :
    findField selectPaymentOptionFields (str "amount") = some 0 ∧
    findField selectPaymentOptionFields (str "amountFee") = some 1 ∧
    findField selectPaymentOptionFields (str "amountNet") = some 2 ∧
    findField selectPaymentOptionFields (str "exchangeRate") = some 3 := by decide

theorem findField_payload :
    findField payloadFields (str "status") = some 0 ∧
    findField payloadFields (str "id") = some 1 ∧
    findField payloadFields (str "number") = some 2 ∧
    findField payloadFields (str "externalId") = some 3 ∧
    findField payloadFields (str "customData") = some 4 ∧
    findField payloadFields (str "orderAmount") = some 5 ∧
    findField payloadFields (str "selectedPaymentOption") = some 6 ∧
    findField payloadFields (str "orderCompletedDateTime") = some 7 := by decide

theorem findField_event :
    findField eventFields (str "eventDateTime") = some 0 ∧
    findField eventFields (str "eventId") = some 1 ∧
    findField eventFields (str "type") = some 2 ∧
    findField eventFields (str "payload") = some 3 := by decide

theorem decodeMoneyAmount_toJson (m cur : MoneyAmount) :
    decodeMoneyAmount m.toJson cur = (m, none) := by
  obtain ⟨h0, h1⟩ := findField_moneyAmount
  simp [decodeMoneyAmount, MoneyAmount.toJson, decodeStruct, decodeMembers,
    decodeMoneyAmountField, h0, h1, decodeString, firstError]

theorem decodeSelectPaymentOption_toJson (o cur : SelectPaymentOption) :
    decodeSelectPaymentOption o.toJson cur = (o, none) := by
  obtain ⟨h0, h1, h2, h3⟩ := findField_selectPaymentOption
  simp [decodeSelectPaymentOption, SelectPaymentOption.toJson, decodeStruct, decodeMembers,
    decodeSelectPaymentOptionField, h0, h1, h2, h3, decodeString, firstError,
    decodeMoneyAmount_toJson]

theorem decodePayload_toJson (p cur : Payload) : decodePayload p.toJson cur = (p, none) := by
  obtain ⟨h0, h1, h2, h3, h4, h5, h6, h7⟩ := findField_payload
  simp [decodePayload, Payload.toJson, decodeStruct, decodeMembers, decodePayloadField,
    h0, h1, h2, h3, h4, h5, h6, h7, decodeString, firstError, decodeMoneyAmount_toJson,
    decodeSelectPaymentOption_toJson, decodeInt64_formatInt]

theorem decodeEvent_toJson (e cur : Event) : decodeEvent e.toJson cur = (e, none) := by
  obtain ⟨h0, h1, h2, h3⟩ := findField_event
  simp [decodeEvent, Event.toJson, decodeStruct, decodeMembers, decodeEventField,
    h0, h1, h2, h3, decodeString, firstError, decodePayload_toJson, decodeInt64_formatInt]

theorem decodeElems_toJson (events old : List Event) :
    decodeElems (events.map Event.toJson) old = (events, none) := by
  induction events generalizing old with
  | nil => rfl
  | cons e t ih => simp [decodeElems, decodeEvent_toJson, ih, firstError]

theorem decodeEvents_toJson (events cur : Option (List Event)) :
    decodeEvents (eventsToJson events) cur = (events, none) := by
  cases events with
  | none => rfl
  | some l => simp [eventsToJson, decodeEvents, decodeElems_toJson]

theorem validString_tags :
    ValidString (str "currencyCode") = true ∧ ValidString (str "amount") = true ∧
    ValidString (str "amountFee") = true ∧ ValidString (str "amountNet") = true ∧
    ValidString (str "exchangeRate") = true ∧ ValidString (str "status") = true ∧
    ValidString (str "id") = true ∧ ValidString (str "number") = true ∧
    ValidString (str "externalId") = true ∧ ValidString (str "customData") = true ∧
    ValidString (str "orderAmount") = true ∧ ValidString (str "selectedPaymentOption") = true ∧
    ValidString (str "orderCompletedDateTime") = true ∧ ValidString (str "eventDateTime") = true ∧
    ValidString (str "eventId") = true ∧ ValidString (str "type") = true ∧
    ValidString (str "payload") = true := by decide

theorem canon_obj (ms : List (GoString × Json)) : Canon (.obj ms) ↔ CanonMembers ms := by
  rw [Canon]

theorem canon_str (x : GoString) : Canon (.str x) ↔ ValidString x = true := by
  rw [Canon]

theorem canon_num (x : GoString) : Canon (.num x) ↔ CanonInt x := by
  rw [Canon]

theorem canonMembers_cons (k : GoString) (v : Json) (ms : List (GoString × Json)) :
    CanonMembers ((k, v) :: ms) ↔ ValidString k = true ∧ Canon v ∧ CanonMembers ms := by
  rw [CanonMembers]

theorem canonMembers_nil : CanonMembers [] ↔ True := by
  rw [CanonMembers]

theorem canon_moneyAmount (m : MoneyAmount) (h : m.validUTF8 = true) : Canon m.toJson := by
  simp only [MoneyAmount.validUTF8, Bool.and_eq_true] at h
  obtain ⟨t0, t1, -⟩ := validString_tags
  simp only [MoneyAmount.toJson, canon_obj, canonMembers_cons, canonMembers_nil, canon_str]
  exact ⟨t0, h.1, t1, h.2, trivial⟩

theorem canon_selectPaymentOption (o : SelectPaymentOption) (h : o.validUTF8 = true) :
    Canon o.toJson := by
  simp only [SelectPaymentOption.validUTF8, Bool.and_eq_true] at h
  obtain ⟨-, t1, t2, t3, t4, -⟩ := validString_tags
  simp only [SelectPaymentOption.toJson, canon_obj, canonMembers_cons, canonMembers_nil, canon_str]
  exact ⟨t1, canon_moneyAmount _ h.1.1.1, t2, canon_moneyAmount _ h.1.1.2, t3,
    canon_moneyAmount _ h.1.2, t4, h.2, trivial⟩

theorem canon_payload (p : Payload) (h : p.validUTF8 = true) : Canon p.toJson := by
  simp only [Payload.validUTF8, Bool.and_eq_true] at h
  obtain ⟨-, -, -, -, -, t5, t6, t7, t8, t9, t10, t11, t12, -⟩ := validString_tags
  obtain ⟨⟨⟨⟨⟨⟨h1, h2⟩, h3⟩, h4⟩, h5⟩, h6⟩, h7⟩ := h
  simp only [Payload.toJson, canon_obj, canonMembers_cons, canonMembers_nil, canon_str, canon_num]
  exact ⟨t5, h1, t6, canonInt_formatInt _, t7, h2, t8, h3, t9, h4, t10, canon_moneyAmount _ h5,
    t11, canon_selectPaymentOption _ h6, t12, h7, trivial⟩

theorem canon_event (e : Event) (h : e.validUTF8 = true) : Canon e.toJson := by
  simp only [Event.validUTF8, Bool.and_eq_true] at h
  obtain ⟨-, -, -, -, -, -, -, -, -, -, -, -, -, t13, t14, t15, t16⟩ := validString_tags
  simp only [Event.toJson, canon_obj, canonMembers_cons, canonMembers_nil, canon_str, canon_num]
  exact ⟨t13, h.1.1, t14, canonInt_formatInt _, t15, h.1.2, t16, canon_payload _ h.2, trivial⟩

theorem canonElems_events (l : List Event) (h : ∀ e ∈ l, e.validUTF8 = true) :
    CanonElems (l.map Event.toJson) := by
  induction l with
  | nil => simp [CanonElems]
  | cons e t ih =>
    simp only [List.map_cons, CanonElems]
    exact ⟨canon_event e (h e (List.mem_cons_self e t)),
      ih (fun x hx => h x (List.mem_cons_of_mem e hx))⟩

theorem canon_events (events : Option (List Event))
    (h : ∀ l, events = some l → ∀ e ∈ l, e.validUTF8 = true) : Canon (eventsToJson events) := by
  cases events with
  | none => simp [eventsToJson, Canon]
  | some l =>
    simp only [eventsToJson, Canon]
    exact canonElems_events l (h l rfl)

theorem height_obj (ms : List (GoString × Json)) :
    (Json.obj ms).height = heightMembers ms + 1 := by
  rw [Json.height]

theorem height_str (x : GoString) : (Json.str x).height = 0 := by
  rw [Json.height]

theorem height_num (x : GoString) : (Json.num x).height = 0 := by
  rw [Json.height]

theorem heightMembers_cons (k : GoString) (v : Json) (ms : List (GoString × Json)) :
    heightMembers ((k, v) :: ms) = max v.height (heightMembers ms) := by
  rw [heightMembers]

theorem heightMembers_nil : heightMembers [] = 0 := by
  rw [heightMembers]

theorem height_moneyAmount (m : MoneyAmount) : m.toJson.height = 1 := by
  simp only [MoneyAmount.toJson, height_obj, heightMembers_cons, heightMembers_nil, height_str]
  rfl

theorem height_selectPaymentOption (o : SelectPaymentOption) : o.toJson.height = 2 := by
  simp only [SelectPaymentOption.toJson, height_obj, heightMembers_cons, heightMembers_nil,
    height_str, height_moneyAmount]
  rfl

theorem height_payload (p : Payload) : p.toJson.height = 3 := by
  simp only [Payload.toJson, height_obj, heightMembers_cons, heightMembers_nil, height_str,
    height_num, height_moneyAmount, height_selectPaymentOption]
  rfl

theorem height_event (e : Event) : e.toJson.height = 4 := by
  simp only [Event.toJson, height_obj, heightMembers_cons, heightMembers_nil, height_str,
    height_num, height_payload]
  rfl

theorem heightElems_events (l : List Event) : heightElems (l.map Event.toJson) ≤ 4 := by
  induction l with
  | nil => simp [heightElems]
  | cons e t ih =>
    simp only [List.map_cons, heightElems, height_event]
    omega

theorem height_events (events : Option (List Event)) :
    (eventsToJson events).height ≤ maxNestingDepth := by
  cases events with
  | none => simp [eventsToJson, Json.height]
  | some l =>
    have := heightElems_events l
    simp only [eventsToJson, Json.height, maxNestingDepth]
    omega

/-! ## The canonical message -/

theorem stringToSign_eq (m p t b : GoString) :
    stringToSign m p t b = m ++ (46 :: (p ++ (46 :: (t ++ (46 :: base64Encode b))))) := by
  have h : str "." = [46] := by decide
  simp [stringToSign, h]

theorem stringToSign_method_inj {m m' p t b : GoString}
    (h : stringToSign m p t b = stringToSign m' p t b) : m = m' := by
  rw [stringToSign_eq, stringToSign_eq] at h
  exact List.append_cancel_right h

theorem stringToSign_path_inj {m p p' t b : GoString}
    (h : stringToSign m p t b = stringToSign m p' t b) : p = p' := by
  rw [stringToSign_eq, stringToSign_eq] at h
  have h1 := List.append_cancel_left h
  simp only [List.cons.injEq, true_and] at h1
  exact List.append_cancel_right h1

theorem stringToSign_timestamp_inj {m p t t' b : GoString}
    (h : stringToSign m p t b = stringToSign m p t' b) : t = t' := by
  rw [stringToSign_eq, stringToSign_eq] at h
  have h1 := List.append_cancel_left h
  simp only [List.cons.injEq, true_and] at h1
  have h2 := List.append_cancel_left h1
  simp only [List.cons.injEq, true_and] at h2
  exact List.append_cancel_right h2

theorem stringToSign_body_inj {m p t b b' : GoString}
    (h : stringToSign m p t b = stringToSign m p t b') : b = b' := by
  rw [stringToSign_eq, stringToSign_eq] at h
  have h1 := List.append_cancel_left h
  simp only [List.cons.injEq, true_and] at h1
  have h2 := List.append_cancel_left h1
  simp only [List.cons.injEq, true_and] at h2
  have h3 := List.append_cancel_left h2
  simp only [List.cons.injEq, true_and] at h3
  exact base64Encode_injective _ _ h3

/-- Claim C3: `computeSignature` is the base64 of the HMAC, keyed with the
API key, of method, path, timestamp and base64 of the body, in this order,
joined by single dots; only the body is base64-encoded beforehand. -/
theorem computeSignature_eq_specSignature (hmacSha256 : GoString → GoString → GoString)
    (c : Client) (method path timestamp body : GoString) :
    computeSignature hmacSha256 c method path timestamp body
      = specSignature hmacSha256 c.ApiKey method path timestamp body := by
  simp [computeSignature, specSignature, stringToSign_eq, List.intercalate, List.intersperse]

/-- Claim C4: a signature computed for (method, path, timestamp, body)
verifies for the same inputs, whatever the key (the empty key included). -/
theorem VerifySignature_computeSignature (hmacSha256 : GoString → GoString → GoString)
    (c : Client) (method path timestamp body : GoString) :
    VerifySignature hmacSha256 c method path timestamp body
      (computeSignature hmacSha256 c method path timestamp body) = true := by
  simp [VerifySignature]

/-- Claim C5: replacing exactly one of method, path, timestamp, body by a
different value changes the canonical message, and then the signature of the
original inputs is rejected for the altered inputs unless the keyed hash
collides on the two messages. -/
theorem VerifySignature_altered (hmacSha256 : GoString → GoString → GoString) (c : Client)
    (m p t b m' p' t' b' : GoString)
    (hone : (m ≠ m' ∧ p = p' ∧ t = t' ∧ b = b') ∨ (m = m' ∧ p ≠ p' ∧ t = t' ∧ b = b') ∨
      (m = m' ∧ p = p' ∧ t ≠ t' ∧ b = b') ∨ (m = m' ∧ p = p' ∧ t = t' ∧ b ≠ b')) :
    stringToSign m p t b ≠ stringToSign m' p' t' b' ∧
    (hmacSha256 c.ApiKey (stringToSign m p t b) ≠ hmacSha256 c.ApiKey (stringToSign m' p' t' b') →
      VerifySignature hmacSha256 c m' p' t' b' (computeSignature hmacSha256 c m p t b) = false) := by
  constructor
  · rcases hone with ⟨h, rfl, rfl, rfl⟩ | ⟨rfl, h, rfl, rfl⟩ | ⟨rfl, rfl, h, rfl⟩ | ⟨rfl, rfl, rfl, h⟩
    · exact fun e => h (stringToSign_method_inj e)
    · exact fun e => h (stringToSign_path_inj e)
    · exact fun e => h (stringToSign_timestamp_inj e)
    · exact fun e => h (stringToSign_body_inj e)
  · intro hmac
    simp only [VerifySignature, computeSignature, beq_eq_false_iff_ne, ne_eq]
    exact fun e => hmac (base64Encode_injective _ _ e).symm

theorem VerifySignature_altered_witness :
    stringToSign (str "POST") (str "/a") (str "17") (str "x")
        ≠ stringToSign (str "POST") (str "/a") (str "17") (str "y") ∧
    VerifySignature sampleMac sampleClient (str "POST") (str "/a") (str "17") (str "y")
        (computeSignature sampleMac sampleClient (str "POST") (str "/a") (str "17") (str "x"))
        = false :=
  have h := VerifySignature_altered sampleMac sampleClient (str "POST") (str "/a") (str "17")
    (str "x") (str "POST") (str "/a") (str "17") (str "y")
    (Or.inr (Or.inr (Or.inr ⟨rfl, rfl, rfl, by decide⟩)))
  ⟨h.1, h.2 (by decide)⟩

/-- Claim C10: the canonical message does not separate method from path:
(`POST`, `.x`) and (`POST.`, `x`) are different pairs that get the same
signature for every timestamp, key and body, so a signature issued for one
is accepted for the other. -/
theorem computeSignature_not_injective :
    (str "POST", str ".x") ≠ (str "POST.", str "x") ∧
    ∀ (hmacSha256 : GoString → GoString → GoString) (c : Client) (t body : GoString),
      computeSignature hmacSha256 c (str "POST") (str ".x") t body
        = computeSignature hmacSha256 c (str "POST.") (str "x") t body ∧
      VerifySignature hmacSha256 c (str "POST.") (str "x") t body
        (computeSignature hmacSha256 c (str "POST") (str ".x") t body) = true := by
  refine ⟨by decide, fun hmacSha256 c t body => ?_⟩
  have h : stringToSign (str "POST") (str ".x") t body
      = stringToSign (str "POST.") (str "x") t body := by
    have h1 : str "POST" = [80, 79, 83, 84] := by decide
    have h2 : str "POST." = [80, 79, 83, 84, 46] := by decide
    have h3 : str ".x" = [46, 120] := by decide
    have h4 : str "x" = [120] := by decide
    simp [stringToSign_eq, h1, h2, h3, h4]
  simp [VerifySignature, computeSignature, h]

/-! ## Status reconciliation -/

theorem request_eq_of_sent {w : World} {c : Client} {path : GoString} {body : Option Reader}
    {queryModifierFunc : Option (Values → Values)} {req : Request} {resp : Response}
    (hnew : w.newRequestWithContext httpMethodPost path body = .ok req)
    (hdo : w.httpDo c.httpClient (prepareRequest c req queryModifierFunc) = .ok resp) :
    request w c path body queryModifierFunc =
      if resp.StatusCode ≠ httpStatusOK then .error (.unexpectedStatusCode resp.StatusCode)
      else .ok resp.Body := by
  simp only [request, hnew, hdo]

theorem CreateOrder_eq_of_decoded {w : World} {c : Client} {orderRequest : OrderRequest}
    {reader : Reader} {envelope : OrderResponse}
    (hreq : request w c (getRequestUrl w c orderPath) (encodeRequest w c orderRequest).1 none
      = .ok reader)
    (hdec : decodeResponse w c reader zeroOrderResponse = (envelope, none)) :
    CreateOrder w c orderRequest =
      if envelope.Status = OrderStatusSuccess ∨ envelope.Status = OrderStatusAlready then
        (some envelope.Preview, none)
      else (none, some (.creatingOrder envelope.Status envelope.Message)) := by
  simp only [CreateOrder, hreq, hdec]

theorem GetPreviewOrder_eq_of_decoded {w : World} {c : Client} {id : GoString}
    {reader : Reader} {envelope : OrderResponse}
    (hreq : request w c (getRequestUrl w c previewPath) none
      (some (fun q => Values.Add q (str "id") id)) = .ok reader)
    (hdec : decodeResponse w c reader zeroOrderResponse = (envelope, none)) :
    GetPreviewOrder w c id =
      if envelope.Status = OrderStatusSuccess then (some envelope.Preview, none)
      else (none, some (.gettingOrder envelope.Status envelope.Message)) := by
  simp only [GetPreviewOrder, hreq, hdec]

/-- Claim C1: once the envelope has been transported and decoded,
`CreateOrder` returns its preview and no error exactly when the status is
`SUCCESS` or `ALREADY`; for any other status it returns the nil preview and
an error. -/
theorem CreateOrder_status (w : World) (c : Client) (orderRequest : OrderRequest)
    (reader : Reader) (envelope : OrderResponse)
    (hreq : request w c (getRequestUrl w c orderPath) (encodeRequest w c orderRequest).1 none
      = .ok reader)
    (hdec : decodeResponse w c reader zeroOrderResponse = (envelope, none)) :
    (CreateOrder w c orderRequest = (some envelope.Preview, none) ↔
      (envelope.Status = OrderStatusSuccess ∨ envelope.Status = OrderStatusAlready)) ∧
    (¬ (envelope.Status = OrderStatusSuccess ∨ envelope.Status = OrderStatusAlready) →
      CreateOrder w c orderRequest
        = (none, some (.creatingOrder envelope.Status envelope.Message))) := by
  rw [CreateOrder_eq_of_decoded hreq hdec]
  by_cases h : envelope.Status = OrderStatusSuccess ∨ envelope.Status = OrderStatusAlready
  · simp [h]
  · simp [h]

theorem CreateOrder_status_witness :
    CreateOrder (sampleWorld 200 (sampleEnvelope OrderStatusAlready) false) sampleClient sampleOrder
      = (some (sampleEnvelope OrderStatusAlready).Preview, none) ∧
    CreateOrder (sampleWorld 200 (sampleEnvelope OrderStatusConflict) false) sampleClient sampleOrder
      = (none, some (.creatingOrder OrderStatusConflict (str "m"))) :=
  ⟨(CreateOrder_status (sampleWorld 200 (sampleEnvelope OrderStatusAlready) false) sampleClient
      sampleOrder (bytesNewReader (str "{}")) (sampleEnvelope OrderStatusAlready) rfl rfl).1.mpr
      (Or.inr rfl),
    (CreateOrder_status (sampleWorld 200 (sampleEnvelope OrderStatusConflict) false) sampleClient
      sampleOrder (bytesNewReader (str "{}")) (sampleEnvelope OrderStatusConflict) rfl rfl).2
      (by decide)⟩

/-- Claim C2: once the envelope has been transported and decoded,
`GetPreviewOrder` returns its preview and no error exactly when the status
is `SUCCESS`; any other status, `ALREADY` included, gives the nil preview and
an error. So whenever `CreateOrder`, for any order request and in any state
of the gateway, has the same envelope transported and decoded, it accepts the
envelope if `GetPreviewOrder` does, while an `ALREADY` envelope is accepted
by `CreateOrder` and refused by `GetPreviewOrder`. -/
theorem GetPreviewOrder_status (w : World) (c : Client) (id : GoString)
    (reader : Reader) (envelope : OrderResponse)
    (hreq : request w c (getRequestUrl w c previewPath) none
      (some (fun q => Values.Add q (str "id") id)) = .ok reader)
    (hdec : decodeResponse w c reader zeroOrderResponse = (envelope, none)) :
    (GetPreviewOrder w c id = (some envelope.Preview, none) ↔
      envelope.Status = OrderStatusSuccess) ∧
    (envelope.Status ≠ OrderStatusSuccess →
      GetPreviewOrder w c id = (none, some (.gettingOrder envelope.Status envelope.Message))) ∧
    (∀ (w' : World) (c' : Client) (orderRequest : OrderRequest) (reader' : Reader),
      request w' c' (getRequestUrl w' c' orderPath) (encodeRequest w' c' orderRequest).1 none
        = .ok reader' →
      decodeResponse w' c' reader' zeroOrderResponse = (envelope, none) →
      (GetPreviewOrder w c id = (some envelope.Preview, none) →
        CreateOrder w' c' orderRequest = (some envelope.Preview, none)) ∧
      (envelope.Status = OrderStatusAlready →
        CreateOrder w' c' orderRequest = (some envelope.Preview, none) ∧
        GetPreviewOrder w c id
          = (none, some (.gettingOrder envelope.Status envelope.Message)))) := by
  have hne : OrderStatusAlready ≠ OrderStatusSuccess := by decide
  rw [GetPreviewOrder_eq_of_decoded hreq hdec]
  refine ⟨?_, ?_, ?_⟩
  · by_cases h : envelope.Status = OrderStatusSuccess
    · simp [h]
    · simp [h]
  · intro h
    simp [h]
  · intro w' c' orderRequest reader' hreq' hdec'
    rw [CreateOrder_eq_of_decoded hreq' hdec']
    by_cases h : envelope.Status = OrderStatusSuccess
    · simp [h, hne.symm]
    · refine ⟨by simp [h], fun ha => ?_⟩
      simp [ha, hne]

theorem GetPreviewOrder_status_witness :
    GetPreviewOrder (sampleWorld 200 (sampleEnvelope OrderStatusSuccess) false) sampleClient
        (str "42")
      = (some (sampleEnvelope OrderStatusSuccess).Preview, none) ∧
    GetPreviewOrder (sampleWorld 200 (sampleEnvelope OrderStatusAlready) false) sampleClient
        (str "42")
      = (none, some (.gettingOrder OrderStatusAlready (str "m"))) ∧
    CreateOrder (sampleWorld 200 (sampleEnvelope OrderStatusAlready) false) sampleClient sampleOrder
      = (some (sampleEnvelope OrderStatusAlready).Preview, none) :=
  have hs := GetPreviewOrder_status (sampleWorld 200 (sampleEnvelope OrderStatusSuccess) false)
    sampleClient (str "42") (bytesNewReader (str "{}")) (sampleEnvelope OrderStatusSuccess) rfl rfl
  have ha := GetPreviewOrder_status (sampleWorld 200 (sampleEnvelope OrderStatusAlready) false)
    sampleClient (str "42") (bytesNewReader (str "{}")) (sampleEnvelope OrderStatusAlready) rfl rfl
  have hc := (ha.2.2 (sampleWorld 200 (sampleEnvelope OrderStatusAlready) false) sampleClient
    sampleOrder (bytesNewReader (str "{}")) rfl rfl).2 rfl
  ⟨hs.1.mpr rfl, ha.2.1 (by decide), hc.1⟩

/-! ## The HTTP status gate -/

/-- Claim C7, as the code has it: for a request that was constructed and
sent without a network error, `request` returns the unexpected-status error
(and no body reader) exactly when the response status is not 200; for status
200 it returns the response body reader. -/
theorem request_status (w : World) (c : Client) (path : GoString) (body : Option Reader)
    (queryModifierFunc : Option (Values → Values)) (req : Request) (resp : Response)
    (hnew : w.newRequestWithContext httpMethodPost path body = .ok req)
    (hdo : w.httpDo c.httpClient (prepareRequest c req queryModifierFunc) = .ok resp) :
    (request w c path body queryModifierFunc = .error (.unexpectedStatusCode resp.StatusCode) ↔
      resp.StatusCode ≠ 200) ∧
    (request w c path body queryModifierFunc = .ok resp.Body ↔ resp.StatusCode = 200) := by
  rw [request_eq_of_sent hnew hdo]
  by_cases h : resp.StatusCode = 200
  · simp [h, httpStatusOK]
  · simp [h, httpStatusOK]

theorem request_status_witness :
    request (sampleWorld 200 zeroOrderResponse false) sampleClient orderPath none none
      = .ok (bytesNewReader (str "{}")) ∧
    request (sampleWorld 404 zeroOrderResponse false) sampleClient orderPath none none
      = .error (.unexpectedStatusCode 404) :=
  ⟨(request_status (sampleWorld 200 zeroOrderResponse false) sampleClient orderPath none none
      { Method := httpMethodPost, URL := orderPath, Query := [], Header := [], Body := none }
      { StatusCode := 200, Body := bytesNewReader (str "{}") } rfl rfl).2.mpr rfl,
    (request_status (sampleWorld 404 zeroOrderResponse false) sampleClient orderPath none none
      { Method := httpMethodPost, URL := orderPath, Query := [], Header := [], Body := none }
      { StatusCode := 404, Body := bytesNewReader (str "{}") } rfl rfl).1.mpr (by decide)⟩

/-- Claim C7 as stated fails: status 201 is a 2xx status, the request was
built and sent, and `request` returns the unexpected-status error. -/
theorem request_created_is_error :
    ((200 : Int) ≤ 201 ∧ (201 : Int) < 300) ∧
    request (sampleWorld 201 zeroOrderResponse false) sampleClient orderPath none none
      = .error (.unexpectedStatusCode 201) :=
  ⟨by decide, rfl⟩

/-! ## The errors of `CreateOrder` -/

/-- Claim C9: for an order request that `json.Marshal` encodes (as it does
every order request, see `jsonMarshalOrder`), `encodeRequest` returns the
reader and the nil error, and every later step that fails ends the call with
its error and the nil preview: a failed request whatever the decoder would
have done, a failed decoding, a status other than `SUCCESS` and `ALREADY`.
The nil error is returned only when the request, the decoding and the status
check all succeeded, and then with the preview of the envelope. -/
theorem CreateOrder_errors (w : World) (c : Client) (orderRequest : OrderRequest)
    (orderJson : GoString) (hm : w.jsonMarshal orderRequest = .ok orderJson) :
    encodeRequest w c orderRequest = (some (bytesNewReader orderJson), none) ∧
    (∀ err, request w c (getRequestUrl w c orderPath) (some (bytesNewReader orderJson)) none
        = .error err →
      CreateOrder w c orderRequest = (none, some err) ∧
      ∀ u, CreateOrder { w with jsonUnmarshal := u } c orderRequest = (none, some err)) ∧
    (∀ reader target err,
      request w c (getRequestUrl w c orderPath) (some (bytesNewReader orderJson)) none
        = .ok reader →
      decodeResponse w c reader zeroOrderResponse = (target, some err) →
      CreateOrder w c orderRequest = (none, some err)) ∧
    (∀ reader envelope,
      request w c (getRequestUrl w c orderPath) (some (bytesNewReader orderJson)) none
        = .ok reader →
      decodeResponse w c reader zeroOrderResponse = (envelope, none) →
      ¬ (envelope.Status = OrderStatusSuccess ∨ envelope.Status = OrderStatusAlready) →
      CreateOrder w c orderRequest
        = (none, some (.creatingOrder envelope.Status envelope.Message))) ∧
    ((CreateOrder w c orderRequest).2 = none →
      ∃ reader envelope,
        request w c (getRequestUrl w c orderPath) (some (bytesNewReader orderJson)) none
          = .ok reader ∧
        decodeResponse w c reader zeroOrderResponse = (envelope, none) ∧
        (envelope.Status = OrderStatusSuccess ∨ envelope.Status = OrderStatusAlready) ∧
        CreateOrder w c orderRequest = (some envelope.Preview, none)) := by
  have he : encodeRequest w c orderRequest = (some (bytesNewReader orderJson), none) := by
    simp only [encodeRequest, hm]
  have h1 : (encodeRequest w c orderRequest).1 = some (bytesNewReader orderJson) := by rw [he]
  refine ⟨he, ?_, ?_, ?_, ?_⟩
  · intro err hreq
    rw [← h1] at hreq
    refine ⟨by simp only [CreateOrder, hreq], fun u => ?_⟩
    have hreq' : request { w with jsonUnmarshal := u } c
        (getRequestUrl { w with jsonUnmarshal := u } c orderPath)
        (encodeRequest { w with jsonUnmarshal := u } c orderRequest).1 none = .error err := hreq
    simp only [CreateOrder, hreq']
  · intro reader target err hreq hdec
    rw [← h1] at hreq
    simp only [CreateOrder, hreq, hdec]
  · intro reader envelope hreq hdec hs
    rw [← h1] at hreq
    rw [CreateOrder_eq_of_decoded hreq hdec, if_neg hs]
  · intro hnil
    rw [← h1]
    rcases hreq : request w c (getRequestUrl w c orderPath) (encodeRequest w c orderRequest).1
      none with err | reader
    · simp [CreateOrder, hreq] at hnil
    · rcases hdec : decodeResponse w c reader zeroOrderResponse with ⟨envelope, _ | err⟩
      · by_cases hs : envelope.Status = OrderStatusSuccess ∨ envelope.Status = OrderStatusAlready
        · exact ⟨reader, envelope, rfl, hdec, hs, by
            rw [CreateOrder_eq_of_decoded hreq hdec, if_pos hs]⟩
        · rw [CreateOrder_eq_of_decoded hreq hdec, if_neg hs] at hnil
          simp at hnil
      · simp [CreateOrder, hreq, hdec] at hnil

theorem CreateOrder_errors_witness :
    encodeRequest (sampleGateway 500 zeroOrderResponse none) sampleClient sampleOrder
      = (some (bytesNewReader (jsonMarshalOrder sampleOrder)), none) ∧
    CreateOrder (sampleGateway 500 zeroOrderResponse none) sampleClient sampleOrder
      = (none, some (.unexpectedStatusCode 500)) ∧
    CreateOrder (sampleGateway 200 zeroOrderResponse (some syntaxError)) sampleClient sampleOrder
      = (none, some (.decodingResponseBody syntaxError)) ∧
    CreateOrder (sampleGateway 200 (sampleEnvelope OrderStatusConflict) none) sampleClient
        sampleOrder
      = (none, some (.creatingOrder OrderStatusConflict (str "m"))) :=
  ⟨(CreateOrder_errors (sampleGateway 500 zeroOrderResponse none) sampleClient sampleOrder
      (jsonMarshalOrder sampleOrder) rfl).1,
    ((CreateOrder_errors (sampleGateway 500 zeroOrderResponse none) sampleClient sampleOrder
      (jsonMarshalOrder sampleOrder) rfl).2.1 (.unexpectedStatusCode 500) rfl).1,
    (CreateOrder_errors (sampleGateway 200 zeroOrderResponse (some syntaxError)) sampleClient
      sampleOrder (jsonMarshalOrder sampleOrder) rfl).2.2.1 (bytesNewReader (str "{}"))
      zeroOrderResponse (.decodingResponseBody syntaxError) rfl rfl,
    (CreateOrder_errors (sampleGateway 200 (sampleEnvelope OrderStatusConflict) none) sampleClient
      sampleOrder (jsonMarshalOrder sampleOrder) rfl).2.2.2.1 (bytesNewReader (str "{}"))
      (sampleEnvelope OrderStatusConflict) rfl rfl (by decide)⟩

/-! ## Parsing events -/

theorem decodeString_error (v : Json) (cur : GoString) :
    (decodeString v cur).2 = if fitsString v then none else some unmarshalTypeError := by
  cases v <;> rfl

theorem decodeInt64_error (v : Json) (cur : Int64) :
    (decodeInt64 v cur).2 = if fitsInt64 v then none else some unmarshalTypeError := by
  cases v with
  | num literal =>
    rcases h : parseInt64 literal with _ | v <;> simp [decodeInt64, fitsInt64, h]
  | _ => rfl

theorem decodeMembers_error {α : Type} (step : GoString → Json → α → α × Option Error)
    (fits : GoString → Json → Bool)
    (h : ∀ k v cur, (step k v cur).2 = if fits k v then none else some unmarshalTypeError) :
    ∀ (ms : List (GoString × Json)) (cur : α),
      (decodeMembers step ms cur).2
        = if ms.all (fun kv => fits kv.1 kv.2) then none else some unmarshalTypeError := by
  intro ms
  induction ms with
  | nil => intro cur; rfl
  | cons kv t ih =>
    intro cur
    obtain ⟨k, v⟩ := kv
    simp only [decodeMembers, h, ih, List.all_cons]
    by_cases h1 : fits k v = true <;> by_cases h2 : (t.all fun kv => fits kv.1 kv.2) = true <;>
      simp [h1, h2, firstError]

theorem decodeStruct_error {α : Type} (step : GoString → Json → α → α × Option Error)
    (fits : GoString → Json → Bool)
    (h : ∀ k v cur, (step k v cur).2 = if fits k v then none else some unmarshalTypeError)
    (j : Json) (cur : α) :
    (decodeStruct step j cur).2
      = if fitsStruct fits j then none else some unmarshalTypeError := by
  cases j with
  | obj members => exact decodeMembers_error step fits h members cur
  | _ => rfl

theorem decodeMoneyAmount_error (j : Json) (cur : MoneyAmount) :
    (decodeMoneyAmount j cur).2 = if fitsMoneyAmount j then none else some unmarshalTypeError := by
  refine decodeStruct_error _ _ (fun k v cur => ?_) j cur
  delta decodeMoneyAmountField fitsMoneyAmountField
  generalize findField moneyAmountFields k = r
  match r with
  | none => rfl
  | some 0 => exact decodeString_error v _
  | some 1 => exact decodeString_error v _
  | some (n + 2) => rfl

theorem decodeSelectPaymentOption_error (j : Json) (cur : SelectPaymentOption) :
    (decodeSelectPaymentOption j cur).2
      = if fitsSelectPaymentOption j then none else some unmarshalTypeError := by
  refine decodeStruct_error _ _ (fun k v cur => ?_) j cur
  delta decodeSelectPaymentOptionField fitsSelectPaymentOptionField
  generalize findField selectPaymentOptionFields k = r
  match r with
  | none => rfl
  | some 0 => exact decodeMoneyAmount_error v _
  | some 1 => exact decodeMoneyAmount_error v _
  | some 2 => exact decodeMoneyAmount_error v _
  | some 3 => exact decodeString_error v _
  | some (n + 4) => rfl

theorem decodePayload_error (j : Json) (cur : Payload) :
    (decodePayload j cur).2 = if fitsPayload j then none else some unmarshalTypeError := by
  refine decodeStruct_error _ _ (fun k v cur => ?_) j cur
  delta decodePayloadField fitsPayloadField
  generalize findField payloadFields k = r
  match r with
  | none => rfl
  | some 0 => exact decodeString_error v _
  | some 1 => exact decodeInt64_error v _
  | some 2 => exact decodeString_error v _
  | some 3 => exact decodeString_error v _
  | some 4 => exact decodeString_error v _
  | some 5 => exact decodeMoneyAmount_error v _
  | some 6 => exact decodeSelectPaymentOption_error v _
  | some 7 => exact decodeString_error v _
  | some (n + 8) => rfl

theorem decodeEvent_error (j : Json) (cur : Event) :
    (decodeEvent j cur).2 = if fitsEvent j then none else some unmarshalTypeError := by
  refine decodeStruct_error _ _ (fun k v cur => ?_) j cur
  delta decodeEventField fitsEventField
  generalize findField eventFields k = r
  match r with
  | none => rfl
  | some 0 => exact decodeString_error v _
  | some 1 => exact decodeInt64_error v _
  | some 2 => exact decodeString_error v _
  | some 3 => exact decodePayload_error v _
  | some (n + 4) => rfl

theorem decodeElems_error (xs : List Json) (old : List Event) :
    (decodeElems xs old).2 = if xs.all fitsEvent then none else some unmarshalTypeError := by
  induction xs generalizing old with
  | nil => rfl
  | cons x t ih =>
    simp only [decodeElems, decodeEvent_error, ih, List.all_cons]
    by_cases h1 : fitsEvent x = true <;> by_cases h2 : t.all fitsEvent = true <;>
      simp [h1, h2, firstError]

theorem decodeEvents_error (j : Json) (cur : Option (List Event)) :
    (decodeEvents j cur).2 = if fitsEvents j then none else some unmarshalTypeError := by
  cases j with
  | arr elems => exact decodeElems_error elems _
  | _ => rfl

/-- Claim C6, as the code has it: for a body that is not a JSON document
`ParseEvents` returns the syntax error with the nil sequence; for a body that
is a JSON document holding, anywhere the event type looks, a value other than
`null` that is not of the kind of its place (`fitsEvents` fails), it returns
the type error with the nil sequence; for every other body it returns what
was decoded and no error. So the nil error is returned only when the body is
a JSON document every value of which fits its place or is `null`. -/
theorem ParseEvents_malformed (body : GoString) :
    (parseDocument body = none →
      ParseEvents jsonUnmarshalEvents body = (none, some syntaxError)) ∧
    (∀ j, parseDocument body = some j → fitsEvents j = false →
      ParseEvents jsonUnmarshalEvents body = (none, some unmarshalTypeError)) ∧
    (∀ j, parseDocument body = some j → fitsEvents j = true →
      ParseEvents jsonUnmarshalEvents body = ((decodeEvents j none).1, none)) ∧
    ((ParseEvents jsonUnmarshalEvents body).2 = none →
      ∃ j, parseDocument body = some j ∧ fitsEvents j = true) := by
  cases hp : parseDocument body with
  | none => simp [ParseEvents, jsonUnmarshalEvents, hp]
  | some j =>
    have he := decodeEvents_error j none
    rcases hd : decodeEvents j none with ⟨evs, err⟩
    rw [hd] at he
    simp only at he
    cases hf : fitsEvents j
    · rw [hf] at he
      simp at he
      subst he
      simp [ParseEvents, jsonUnmarshalEvents, hp, hd, hf]
    · rw [hf] at he
      simp at he
      subst he
      simp [ParseEvents, jsonUnmarshalEvents, hp, hd, hf]

set_option maxRecDepth 100000 in
theorem ParseEvents_malformed_witness :
    ParseEvents jsonUnmarshalEvents sampleTruncatedBody = (none, some syntaxError) ∧
    ParseEvents jsonUnmarshalEvents sampleMistypedBody = (none, some unmarshalTypeError) :=
  ⟨(ParseEvents_malformed sampleTruncatedBody).1 rfl,
    (ParseEvents_malformed sampleMistypedBody).2.1 sampleMistypedDocument rfl (by decide)⟩

set_option maxRecDepth 100000 in
/-- Claim C6 as stated fails: the body `[null]` is a JSON document whose one
element is `null`, not an event record, and `ParseEvents` returns a sequence
of one zero-valued event with the nil error; the body `null` is no sequence
at all, and `ParseEvents` returns the nil error with the nil sequence. -/
theorem ParseEvents_null_record :
    (parseDocument (str "[null]") = some (.arr [.null]) ∧
      isEventRecords (.arr [.null]) = false ∧
      ParseEvents jsonUnmarshalEvents (str "[null]") = (some [zeroEvent], none)) ∧
    (parseDocument (str "null") = some .null ∧
      isEventRecords .null = false ∧
      ParseEvents jsonUnmarshalEvents (str "null") = (none, none)) :=
  ⟨⟨rfl, rfl, by decide⟩, ⟨rfl, rfl, by decide⟩⟩

/-! ## The round trip of events -/

/-- Claim C8, as the code has it: for every sequence of events (the nil
slice included) whose strings are all valid UTF-8, encoding the sequence with
`json.Marshal` and calling `ParseEvents` on the result returns no error and
the original sequence, field by field. -/
theorem ParseEvents_jsonMarshalEvents (events : Option (List Event))
    (h : ∀ l, events = some l → ∀ e ∈ l, e.validUTF8 = true) :
    ParseEvents jsonUnmarshalEvents (jsonMarshalEvents events) = (events, none) := by
  simp [ParseEvents, jsonUnmarshalEvents, jsonMarshalEvents,
    parseDocument_render _ (canon_events events h) (height_events events), decodeEvents_toJson]

theorem ParseEvents_jsonMarshalEvents_witness :
    ParseEvents jsonUnmarshalEvents (jsonMarshalEvents (some [sampleEvent (str "2023-11-04")]))
      = (some [sampleEvent (str "2023-11-04")], none) :=
  ParseEvents_jsonMarshalEvents (some [sampleEvent (str "2023-11-04")]) (by
    intro l hl e he
    simp only [Option.some.injEq] at hl
    subst hl
    rw [List.mem_singleton.mp he]
    decide)

set_option maxRecDepth 100000 in
/-- Claim C8 as stated fails: an event whose date is the single byte `0xFF`
(a Go string, not valid UTF-8) is written as the escape of U+FFFD and read
back as the three bytes of U+FFFD; no error is returned and the sequence
differs from the original. -/
theorem ParseEvents_changes_invalid_utf8 :
    ParseEvents jsonUnmarshalEvents (jsonMarshalEvents (some [sampleEvent [0xFF]]))
      = (some [sampleEvent [0xEF, 0xBF, 0xBD]], none) ∧
    ParseEvents jsonUnmarshalEvents (jsonMarshalEvents (some [sampleEvent [0xFF]]))
      ≠ (some [sampleEvent [0xFF]], none) := by
  decide

end WalletPay
